import Mathlib

/-!
# Tic-tac-toe TCP server: a shallow embedding of `server/server.go`

The Go program pairs two TCP clients into a match and runs a turn loop
(`Game.Start`) over a 3x3 board.  This file embeds the board operations,
the move parser, the turn loop and the result history as Lean functions and
states the properties of the specification about them.

Conventions of the embedding

* A Go `string` is a Lean `String`; an input line read from a connection is a
  `List Char` (the parser only distinguishes the ASCII characters space, sign
  and digit, which are single bytes in Go and never part of a longer
  UTF-8 sequence).
* A Go `int` is a Lean `Int`; the two subtractions of the program
  (`row - 1`, `1 - currentPlayer`) wrap around at 64 bits, see `wrapInt`.
* Code that can hit a run-time panic (an index out of range) returns an
  `Option`, with `none` standing for the panic.
* A Go `error` is an `Option String`: `none` is `nil`, `some msg` is an error
  with that message.
* A connection is the record of what was written to it and whether it was
  closed.  The mutexes are not part of the sequential model of a match; the
  locking around the history update is modelled apart, as a schedule of atomic
  actions of several matches (`finishSection`, `Shared.run`).
-/

namespace TicTacToe

/-! ## Constants and data model -/

/-- Mark of the first participant, `const X = "X"`. -/
def X : String := "X"

/-- Mark of the second participant, `const O = "O"`. -/
def O : String := "O"

/-- The Go array `[3][3]string`: `b i j` is `board[i][j]`. -/
abbrev Board := Fin 3 → Fin 3 → String

/-- A Go `error` value: `none` is `nil`. -/
abbrev GoError := Option String

/-- A `net.Conn` as seen by the server: the texts written to it, oldest
first, and whether `Close` was called on it. -/
structure Conn where
  sent : List String
  closed : Bool

/-- The struct `Game` (the mutex is left out of the sequential model). -/
structure Game where
  gameId : String
  board : Board
  playerOneTurn : Bool
  conns : List Conn
  currentPlayer : Int
  Usernames : List String

/-- The struct `GameHistory`. -/
structure GameHistory where
  GameID : String
  Player1 : String
  Player2 : String
  Winner : String
  Finished : Bool
  Board : Board

/-- The struct `Server`.  The map `games` holds pointers; an entry is modelled
as the key together with the address of the game it points to. -/
structure Server where
  games : List (String × Nat)
  history : List GameHistory

/-- The empty board, the zero value `[3][3]string{}`. -/
def emptyBoard : Board := fun _ _ => ""

/-- The function `NewGame`. -/
def NewGame (conns : List Conn) (usernames : List String) (gameId : String) : Game :=
  { gameId := gameId
    board := emptyBoard
    playerOneTurn := true
    conns := conns
    currentPlayer := 0
    Usernames := usernames }

/-! ## Machine integers and indexing -/

/-- Width of the Go type `int` on the 64-bit platforms the server targets. -/
def intSize : Nat := 64

/-- Smallest value of `int`. -/
def minInt : Int := -(2 ^ (intSize - 1))

/-- Largest value of `int`. -/
def maxInt : Int := 2 ^ (intSize - 1) - 1

/-- Two's-complement wrap-around of an integer result to the range of `int`. -/
def wrapInt (x : Int) : Int := (x + 2 ^ (intSize - 1)) % 2 ^ intSize - 2 ^ (intSize - 1)

/-- An index into an array of length 3: `none` when the index is out of
range, which is a run-time panic in Go. -/
def idx3? (i : Int) : Option (Fin 3) :=
  if h : 0 ≤ i ∧ i < 3 then some ⟨i.toNat, by omega⟩ else none

/-- The expression `board[row][col]` for `int` indices; `none` is the
index-out-of-range panic. -/
def Board.at? (b : Board) (row col : Int) : Option String :=
  match idx3? row, idx3? col with
  | some i, some j => some (b i j)
  | _, _ => none

/-- The assignment `board[row][col] = mark`, on indices already in range. -/
def Board.set (b : Board) (i j : Fin 3) (mark : String) : Board :=
  fun i' j' => if i' = i ∧ j' = j then mark else b i' j'

/-! ## Board operations -/

/-- The first loop of `CheckWinner`: for `i` running over the given indices,
row `i` is tested first and column `i` second; the mark of the first line of
three identical non-empty cells is returned. -/
def checkRowsCols (b : Board) : List (Fin 3) → Option String
  | [] => none
  | i :: rest =>
    if b i 0 ≠ "" ∧ b i 0 = b i 1 ∧ b i 1 = b i 2 then some (b i 0)
    else if b 0 i ≠ "" ∧ b 0 i = b 1 i ∧ b 1 i = b 2 i then some (b 0 i)
    else checkRowsCols b rest

/-- The inner loop `for _, cell := range row` of the scan for an empty cell. -/
def rowHasEmpty (b : Board) (i : Fin 3) : List (Fin 3) → Bool
  | [] => false
  | j :: rest => if b i j = "" then true else rowHasEmpty b i rest

/-- The outer loop `for _, row := range g.board` of the scan for an empty
cell. -/
def boardHasEmpty (b : Board) : List (Fin 3) → Bool
  | [] => false
  | i :: rest => if rowHasEmpty b i [0, 1, 2] then true else boardHasEmpty b rest

/-- The method `Game.CheckWinner`, returning `(winner, finished)`. -/
def CheckWinner (g : Game) : String × Bool :=
  match checkRowsCols g.board [0, 1, 2] with
  | some w => (w, true)
  | none =>
    if g.board 0 0 ≠ "" ∧ g.board 0 0 = g.board 1 1 ∧ g.board 1 1 = g.board 2 2 then
      (g.board 0 0, true)
    else if g.board 0 2 ≠ "" ∧ g.board 0 2 = g.board 1 1 ∧ g.board 1 1 = g.board 2 0 then
      (g.board 0 2, true)
    else if boardHasEmpty g.board [0, 1, 2] then ("", false)
    else ("Draw", true)

/-- Error message of `ValidateMove` for an index outside the grid. -/
def errOutOfRange : String := "row and column must be between 1 and 3"

/-- Error message of `ValidateMove` for a cell that already holds a mark. -/
def errOccupied : String := "cell already occupied"

/-- The method `Game.ValidateMove`.  The result is the game after the call
together with the returned error; `none` is a run-time panic of the
indexing `g.board[row][col]`. -/
def ValidateMove (g : Game) (row col : Int) : Option (Game × GoError) :=
  if row < 0 ∨ row ≥ 3 ∨ col < 0 ∨ col ≥ 3 then some (g, some errOutOfRange)
  else
    match g.board.at? row col with
    | none => none
    | some cell => if cell ≠ "" then some (g, some errOccupied) else some (g, none)

/-- The method `Game.SetMove`; `none` is the index-out-of-range panic of the
assignment `g.board[row][col] = mark`. -/
def SetMove (g : Game) (row col : Int) : Option Game :=
  let mark := if !g.playerOneTurn then O else X
  match idx3? row, idx3? col with
  | some i, some j => some { g with board := g.board.set i j mark }
  | _, _ => none

/-- The method `Game.SwitchTurn`. -/
def SwitchTurn (g : Game) : Game :=
  { g with currentPlayer := wrapInt (1 - g.currentPlayer), playerOneTurn := !g.playerOneTurn }

/-! ## The move parser -/

/-- Helper of `splitSpace`: the field before the first space, and the fields
after it. -/
def splitSpaceAux : List Char → List Char × List (List Char)
  | [] => ([], [])
  | c :: rest =>
    let r := splitSpaceAux rest
    if c = ' ' then ([], r.1 :: r.2) else (c :: r.1, r.2)

/-- The library call `strings.Split(input, " ")`: the fields between
consecutive single spaces (so `n` spaces give `n + 1` fields, possibly
empty). -/
def splitSpace (input : List Char) : List (List Char) :=
  (splitSpaceAux input).1 :: (splitSpaceAux input).2

/-- Value of the digit characters read so far, extended by the rest of the
string; `none` when a character is not one of `0` to `9`. -/
def parseDigits : List Char → Nat → Option Nat
  | [], n => some n
  | c :: rest, n => if c.isDigit then parseDigits rest (n * 10 + (c.toNat - 48)) else none

/-- The library call `strconv.Atoi`, as documented for Go: an optional sign
`+` or `-`, then one or more decimal digits, and the value must fit in `int`.
`none` stands for a non-nil error (syntax or range); the program only tests
the error against `nil`. -/
def Atoi (s : List Char) : Option Int :=
  let neg := s.head? = some '-'
  let ds := if s.head? = some '-' ∨ s.head? = some '+' then s.tail else s
  if ds = [] then none
  else
    match parseDigits ds 0 with
    | none => none
    | some n =>
      let v : Int := if neg then -(n : Int) else (n : Int)
      if minInt ≤ v ∧ v ≤ maxInt then some v else none

/-- Error message of `parseMove` when the line does not split into two
fields. -/
def errTwoNumbers : String := "expected two numbers separated by space"

/-- Error message of `parseMove` when a field is not a number. -/
def errInvalidNumbers : String := "invalid numbers"

/-- The function `parseMove`, returning `(row, col, err)`. -/
def parseMove (input : List Char) : Int × Int × GoError :=
  match splitSpace input with
  | [p0, p1] =>
    match Atoi p0, Atoi p1 with
    | some row, some col => (wrapInt (row - 1), wrapInt (col - 1), none)
    | _, _ => (0, 0, some errInvalidNumbers)
  | _ => (0, 0, some errTwoNumbers)

/-! ## Output to the participants -/

/-- A write to a connection (`fmt.Fprint` and friends, whose error result the
program ignores): the text is recorded unless the connection is closed. -/
def Conn.write (c : Conn) (text : String) : Conn :=
  if c.closed then c else { c with sent := c.sent ++ [text] }

/-- The loop `for _, conn := range g.conns` writing one text to every
connection. -/
def sendAll (conns : List Conn) (text : String) : List Conn :=
  conns.map (fun c => c.write text)

/-- A write to the connection at position `k` of the slice. -/
def writeAt : List Conn → Nat → String → List Conn
  | [], _, _ => []
  | c :: rest, 0, text => c.write text :: rest
  | c :: rest, k + 1, text => c :: writeAt rest k text

/-- The index expression `g.conns[i]` for an `int` index: the position when
it is in range, `none` for the index-out-of-range panic. -/
def connIndex? (conns : List Conn) (i : Int) : Option Nat :=
  if 0 ≤ i ∧ i.toNat < conns.length then some i.toNat else none

/-- The inner loop of `PrintBoard` over the cells of one row. -/
def renderCells (b : Board) (i : Fin 3) : List (Fin 3) → String
  | [] => ""
  | j :: rest => (if b i j = "" then "_ " else b i j ++ " ") ++ renderCells b i rest

/-- The outer loop of `PrintBoard` over the rows. -/
def renderRows (b : Board) : List (Fin 3) → String
  | [] => ""
  | i :: rest => toString (i.val + 1) ++ " | " ++ renderCells b i [0, 1, 2] ++ "\n" ++ renderRows b rest

/-- The text built by `PrintBoard` in its `strings.Builder`. -/
def boardText (b : Board) : String :=
  "\n    1 2 3\n" ++ "  --------\n" ++ renderRows b [0, 1, 2] ++ "\n"

/-- The method `Game.PrintBoard`. -/
def PrintBoard (g : Game) : Game :=
  { g with conns := sendAll g.conns (boardText g.board) }

/-- The prompt sent to the active participant. -/
def promptText : String := "Your turn! Enter row and column (e.g., 2 3):\n"

/-- The notice sent to both participants when a read fails
(`fmt.Fprintln` appends the newline). -/
def disconnectText : String := "Player disconnected! game over!\n"

/-- The text of `fmt.Fprintf(conn, "Invalid move: %v\n", err)`. -/
def invalidMoveText (err : String) : String := "Invalid move: " ++ err ++ "\n"

/-- The final message sent to both participants. -/
def gameOverText (winner : String) : String :=
  if winner = "Draw" then "Game over! It\x27s a draw!\n"
  else "Game over! Player " ++ winner ++ " wins!\n"

/-! ## The result history -/

/-- The method `Server.SetGameHistory`; `none` is the index-out-of-range
panic of `game.Usernames[0]` or `game.Usernames[1]`. -/
def SetGameHistory (s : Server) (game : Game) (winner : String) (finished : Bool) :
    Option Server :=
  match game.Usernames[0]?, game.Usernames[1]? with
  | some p1, some p2 =>
    some { s with
      history := s.history ++
        [{ GameID := game.gameId
           Player1 := p1
           Player2 := p2
           Winner := winner
           Finished := finished
           Board := game.board }] }
  | _, _ => none

/-- The method `Server.ExportHistory`, which encodes the whole history into
the file `history.json`: the value written when the file can be created.  It
changes neither the server nor the game. -/
def ExportHistory (s : Server) : List GameHistory := s.history

/-! ## The turn loop -/

/-- The way one pass through the body of the loop in `Game.Start` ends. -/
inductive Path where
  /-- `scanner.Scan()` failed: `return`. -/
  | disconnected
  /-- `parseMove` returned an error: `continue`. -/
  | parseError
  /-- `ValidateMove` returned an error: `continue`. -/
  | invalidMove
  /-- The move was applied and `CheckWinner` reported finished: `break`. -/
  | finished
  /-- The move was applied and the turn was switched; the loop goes on. -/
  | switched
  deriving DecidableEq, Repr

/-- One pass through the body of the loop `for { ... }` in `Game.Start`.
The argument `input` is what the read from the active connection yields:
`none` when `scanner.Scan()` returns false, `some line` for `scanner.Text()`.
The result is the path taken, the server and the game after the pass;
`none` is a run-time panic.  The call `server.ExportHistory()` that follows
`SetGameHistory` writes the file `history.json` and changes neither the server
nor the game, so it leaves no trace in the result; the same holds for the
writes to the standard output of the server. -/
def iteration (s : Server) (g : Game) (input : Option (List Char)) :
    Option (Path × Server × Game) :=
  let g1 := PrintBoard g
  match connIndex? g1.conns g1.currentPlayer with
  | none => none
  | some k =>
    let g2 := { g1 with conns := writeAt g1.conns k promptText }
    match input with
    | none => some (Path.disconnected, s, { g2 with conns := sendAll g2.conns disconnectText })
    | some move =>
      match parseMove move with
      | (_, _, some err) =>
        some (Path.parseError, s, { g2 with conns := writeAt g2.conns k (invalidMoveText err) })
      | (row, col, none) =>
        match ValidateMove g2 row col with
        | none => none
        | some (g3, some err) =>
          some (Path.invalidMove, s, { g3 with conns := writeAt g3.conns k (invalidMoveText err) })
        | some (g3, none) =>
          match SetMove g3 row col with
          | none => none
          | some g4 =>
            if (CheckWinner g4).2 then
              match SetGameHistory s g4 (CheckWinner g4).1 true with
              | none => none
              | some s1 =>
                some (Path.finished, s1,
                  { g4 with conns := sendAll g4.conns (gameOverText (CheckWinner g4).1) })
            else some (Path.switched, s, SwitchTurn g4)

/-- The loop after `break`: `conn.Close()` on every connection. -/
def closeAll (g : Game) : Game :=
  { g with conns := g.conns.map (fun c => { c with closed := true }) }

/-- Whether `Game.Start` is still in its loop or has returned. -/
inductive Status where
  | awaiting
  | stopped
  deriving DecidableEq, Repr

/-- What `Game.Start` has done after a finite sequence of reads. -/
structure Run where
  /-- The path of every pass through the loop body, oldest first. -/
  trace : List Path
  status : Status
  server : Server
  game : Game

/-- The method `Game.Start`, run on the sequence of results of its reads.
When the reads are used up the loop is awaiting the next one, and the state
returned is the one at the head of the loop. -/
def Start (s : Server) (g : Game) : List (Option (List Char)) → Option Run
  | [] => some { trace := [], status := Status.awaiting, server := s, game := g }
  | input :: rest =>
    match iteration s g input with
    | none => none
    | some (Path.disconnected, s1, g1) =>
      some { trace := [Path.disconnected], status := Status.stopped, server := s1, game := g1 }
    | some (Path.finished, s1, g1) =>
      some { trace := [Path.finished], status := Status.stopped, server := s1,
             game := closeAll g1 }
    | some (p, s1, g1) =>
      match Start s1 g1 rest with
      | none => none
      | some r => some { r with trace := p :: r.trace }

/-! ## Vocabulary of the specification -/

/-- The eight lines of the grid: three rows, three columns, the main
diagonal and the anti-diagonal, each as its three cells. -/
def allLines : List ((Fin 3 × Fin 3) × (Fin 3 × Fin 3) × (Fin 3 × Fin 3)) :=
  [((0, 0), (0, 1), (0, 2)), ((1, 0), (1, 1), (1, 2)), ((2, 0), (2, 1), (2, 2)),
   ((0, 0), (1, 0), (2, 0)), ((0, 1), (1, 1), (2, 1)), ((0, 2), (1, 2), (2, 2)),
   ((0, 0), (1, 1), (2, 2)), ((0, 2), (1, 1), (2, 0))]

/-- All three cells of the line equal the mark `m`. -/
def lineAll (b : Board) (m : String)
    (l : (Fin 3 × Fin 3) × (Fin 3 × Fin 3) × (Fin 3 × Fin 3)) : Prop :=
  b l.1.1 l.1.2 = m ∧ b l.2.1.1 l.2.1.2 = m ∧ b l.2.2.1 l.2.2.2 = m

instance (b : Board) (m : String) (l : (Fin 3 × Fin 3) × (Fin 3 × Fin 3) × (Fin 3 × Fin 3)) :
    Decidable (lineAll b m l) := by
  unfold lineAll
  infer_instance

/-- Some row, column or diagonal of the board has all three cells equal
to `m`. -/
def hasLine (b : Board) (m : String) : Prop := ∃ l ∈ allLines, lineAll b m l

instance (b : Board) (m : String) : Decidable (hasLine b m) := by
  unfold hasLine
  infer_instance

/-- Some row, column or diagonal holds three identical non-empty marks. -/
def hasWonLine (b : Board) : Prop := ∃ l ∈ allLines, b l.1.1 l.1.2 ≠ "" ∧ lineAll b (b l.1.1 l.1.2) l

instance (b : Board) : Decidable (hasWonLine b) := by
  unfold hasWonLine
  infer_instance

/-- Every cell of the board is empty, `X` or `O`. -/
def cellsValid (b : Board) : Prop := ∀ i j, b i j = "" ∨ b i j = X ∨ b i j = O

instance (b : Board) : Decidable (cellsValid b) := by
  unfold cellsValid
  infer_instance

/-- All nine cells are non-empty. -/
def boardFull (b : Board) : Prop := ∀ i j, b i j ≠ ""

instance (b : Board) : Decidable (boardFull b) := by
  unfold boardFull
  infer_instance

/-- A game whose board is `b`, with the other fields as `NewGame` sets them
for two fresh connections. -/
def gameOfBoard (b : Board) : Game :=
  { NewGame [⟨[], false⟩, ⟨[], false⟩] ["alice", "bob"] "g" with board := b }

/-- Board from its nine cells, row by row. -/
def boardOf (c00 c01 c02 c10 c11 c12 c20 c21 c22 : String) : Board :=
  fun i j =>
    match i.val, j.val with
    | 0, 0 => c00 | 0, 1 => c01 | 0, _ => c02
    | 1, 0 => c10 | 1, 1 => c11 | 1, _ => c12
    | _, 0 => c20 | _, 1 => c21 | _, _ => c22

/-! ## Further vocabulary of the statements -/

/-- The board with `X` on the whole first row and `O` on the whole second
row. -/
def boardTwoLines : Board := boardOf "X" "X" "X" "O" "O" "O" "" "" ""

/-- The mark `SetMove` writes: `X` on the first participant's turn, `O`
otherwise. -/
def markOf (g : Game) : String := if !g.playerOneTurn then O else X

/-- A game as `main` builds it: two fresh connections and two usernames. -/
def sampleGame : Game := NewGame [⟨[], false⟩, ⟨[], false⟩] ["alice", "bob"] "match-1"

/-- A server that has recorded nothing yet. -/
def sampleServer : Server := { games := [("match-1", 0)], history := [] }

/-- The two turn indicators agree: slot 0 with `playerOneTurn`, slot 1
without. -/
def TurnInv (g : Game) : Prop :=
  (g.currentPlayer = 0 ∧ g.playerOneTurn = true) ∨
  (g.currentPlayer = 1 ∧ g.playerOneTurn = false)

/-- Number of passes of a trace in which a move was accepted and applied. -/
def appliedMoves : List Path → Nat
  | [] => 0
  | p :: rest => (if p = Path.switched ∨ p = Path.finished then 1 else 0) + appliedMoves rest

/-- Value of a string of decimal digits, most significant digit first. -/
def digitsValue (ds : List Char) : Nat := ds.foldl (fun n c => n * 10 + (c.toNat - 48)) 0

/-- The string `s` is a decimal integer of value `v`: an optional sign `+`
or `-` followed by one or more decimal digits. -/
def IsDecimalInteger (s : List Char) (v : Int) : Prop :=
  ∃ ds, ds ≠ [] ∧ (∀ c ∈ ds, c.isDigit = true) ∧
    ((s = ds ∧ v = (digitsValue ds : Int)) ∨ (s = '+' :: ds ∧ v = (digitsValue ds : Int)) ∨
      (s = '-' :: ds ∧ v = -(digitsValue ds : Int)))

/-- The line consists of two decimal integers, of values `r` and `c`,
separated by a single space. -/
def IsTwoIntegers (line : List Char) (r c : Int) : Prop :=
  ∃ a b, line = a ++ ' ' :: b ∧ IsDecimalInteger a r ∧ IsDecimalInteger b c

/-- The value fits the Go type `int`. -/
def InIntRange (v : Int) : Prop := minInt ≤ v ∧ v ≤ maxInt

instance (v : Int) : Decidable (InIntRange v) := by
  unfold InIntRange
  infer_instance

/-- The summary `SetGameHistory` builds for a game with the given two
usernames. -/
def summaryOf (game : Game) (p1 p2 winner : String) (finished : Bool) : GameHistory :=
  { GameID := game.gameId
    Player1 := p1
    Player2 := p2
    Winner := winner
    Finished := finished
    Board := game.board }

/-- A server that has already recorded one match. -/
def sampleServerOne : Server :=
  { games := [("match-0", 0), ("match-1", 1)]
    history := [{ GameID := "match-0", Player1 := "carol", Player2 := "dave", Winner := "Draw",
                  Finished := true, Board := boardOf "X" "O" "X" "X" "O" "O" "O" "X" "X" }] }

/-- The nine cells of a board, row by row. -/
def Board.rows (b : Board) : List (List String) :=
  [[b 0 0, b 0 1, b 0 2], [b 1 0, b 1 1, b 1 2], [b 2 0, b 2 1, b 2 2]]

/-- The reads of scenario A: X at (1,1), (1,2), (1,3) interleaved with O at
(2,1), (2,2). -/
def scenarioA : List (Option (List Char)) :=
  [some "1 1".toList, some "2 1".toList, some "1 2".toList, some "2 2".toList,
   some "1 3".toList]

/-- How the rendered board shows one cell: an underscore for an empty cell,
the mark otherwise, followed by one space. -/
def cellText (cell : String) : String := if cell = "" then "_ " else cell ++ " "

/-- The line consists of three identical non-empty marks. -/
def lineWon (b : Board) (l : (Fin 3 × Fin 3) × (Fin 3 × Fin 3) × (Fin 3 × Fin 3)) : Prop :=
  b l.1.1 l.1.2 ≠ "" ∧ lineAll b (b l.1.1 l.1.2) l

instance (b : Board) (l : (Fin 3 × Fin 3) × (Fin 3 × Fin 3) × (Fin 3 × Fin 3)) :
    Decidable (lineWon b l) := by
  unfold lineWon
  infer_instance

/-- The reads of a match in which the ninth move, X at (1,1), completes the
first row and the first column at once. -/
def doubleLineMoves : List (Option (List Char)) :=
  [some "1 2".toList, some "2 2".toList, some "1 3".toList, some "2 3".toList,
   some "2 1".toList, some "3 2".toList, some "3 1".toList, some "3 3".toList,
   some "1 1".toList]

/-- The reads of a match in which the ninth move, X at (2,2), completes both
diagonals at once. -/
def twoDiagonalsMoves : List (Option (List Char)) :=
  [some "1 1".toList, some "1 2".toList, some "3 3".toList, some "2 1".toList,
   some "1 3".toList, some "2 3".toList, some "3 1".toList, some "3 2".toList,
   some "2 2".toList]

/-- The nine cells of a board, row by row. -/
def Board.cells (b : Board) : List String :=
  [b 0 0, b 0 1, b 0 2, b 1 0, b 1 1, b 1 2, b 2 0, b 2 1, b 2 2]

/-- Number of cells of the board that satisfy `p`. -/
def countCells (p : String → Bool) (b : Board) : Nat := b.cells.countP p

/-- Number of non-empty cells. -/
def filledCells (b : Board) : Nat := countCells (fun c => c != "") b

/-- Number of cells holding the mark `m`. -/
def countMark (b : Board) (m : String) : Nat := countCells (fun c => c == m) b

/-- The state of the game at the start of a turn: every cell is empty, X or O,
the two turn indicators agree, and X is ahead of O by the index of the active
slot. -/
def TurnStartInv (g : Game) : Prop :=
  cellsValid g.board ∧ TurnInv g ∧
    (countMark g.board X : Int) - (countMark g.board O : Int) = g.currentPlayer

/-- The search of the reference evaluation: the mark of the first line of the
list that has three identical non-empty cells. -/
def firstWonLine (b : Board) :
    List ((Fin 3 × Fin 3) × (Fin 3 × Fin 3) × (Fin 3 × Fin 3)) → Option String
  | [] => none
  | l :: rest =>
    if b l.1.1 l.1.2 ≠ "" ∧ b l.1.1 l.1.2 = b l.2.1.1 l.2.1.2 ∧
        b l.2.1.1 l.2.1.2 = b l.2.2.1 l.2.2.2 then
      some (b l.1.1 l.1.2)
    else firstWonLine b rest

/-- The reference evaluation, in the words of the specification: the three
rows in order, then the three columns in order, then the main diagonal, then
the anti-diagonal are checked for three identical non-empty cells and the mark
of the first such line is the winner; otherwise the result is Draw when all
cells are non-empty and not finished when some cell is empty. -/
def evaluateOutcomeRef (b : Board) : String × Bool :=
  match firstWonLine b allLines with
  | some w => (w, true)
  | none => if ∀ i j, b i j ≠ "" then ("Draw", true) else ("", false)

/-- The board with X on the whole first column and on the whole second row. -/
def boardColumnAndRow : Board := boardOf "X" "O" "O" "X" "X" "X" "X" "O" ""

/-- Identity of a `sync.Mutex` object of the program: the one `main`
allocates for the server (`mutex: &sync.Mutex{}` in the `Server` literal), or
the one the `n`-th call of `NewGame` allocates for its game (`mutex:
&sync.Mutex{}` in the `Game` literal, a fresh object at every call). -/
inductive MutexId where
  | ofServer
  | ofGame (n : Nat)
  deriving DecidableEq, Repr

/-- The atomic actions of the lines 167 to 170 of `Game.Start`. -/
inductive Action where
  /-- The call `Lock()` on a mutex. -/
  | lock (m : MutexId)
  /-- The call `server.SetGameHistory(*g, winner, true)`. -/
  | setGameHistory (game : Game) (winner : String)
  /-- The call `server.ExportHistory()`. -/
  | exportHistory
  /-- The call `Unlock()` on a mutex. -/
  | unlock (m : MutexId)

/-- The lines 167 to 170 of `Game.Start` as run by the match of the `n`-th
call of `NewGame`: `g.mutex.Lock()`, `SetGameHistory`, `ExportHistory`,
`g.mutex.Unlock()`, where `g.mutex` is the mutex of that game. -/
def finishSection (n : Nat) (g : Game) (winner : String) : List Action :=
  [Action.lock (MutexId.ofGame n), Action.setGameHistory g winner, Action.exportHistory,
   Action.unlock (MutexId.ofGame n)]

/-- The same four calls under the mutex of the server, as a single lock
shared by all matches would have them. -/
def finishSectionShared (g : Game) (winner : String) : List Action :=
  [Action.lock MutexId.ofServer, Action.setGameHistory g winner, Action.exportHistory,
   Action.unlock MutexId.ofServer]

/-- The state the matches share: the server, the content of `history.json`,
and the mutexes that are locked. -/
structure Shared where
  server : Server
  file : Option (List GameHistory)
  held : List MutexId

/-- One atomic action on the shared state; `none` when it cannot proceed:
`Lock()` on a locked mutex blocks, and `SetGameHistory` may panic. -/
def Shared.act (st : Shared) : Action → Option Shared
  | Action.lock m => if m ∈ st.held then none else some { st with held := m :: st.held }
  | Action.setGameHistory g w =>
    match SetGameHistory st.server g w true with
    | none => none
    | some s => some { st with server := s }
  | Action.exportHistory => some { st with file := some (ExportHistory st.server) }
  | Action.unlock m => some { st with held := st.held.erase m }

/-- A schedule of atomic actions run from a shared state. -/
def Shared.run (st : Shared) : List Action → Option Shared
  | [] => some st
  | a :: rest =>
    match st.act a with
    | none => none
    | some st1 => st1.run rest

/-- The schedule that alternates between two matches, one action each. -/
def alternate : List Action → List Action → List Action
  | [], bs => bs
  | a :: as, [] => a :: as
  | a :: as, b :: bs => a :: b :: alternate as bs

/-- The shared state before any match has finished. -/
def sharedStart : Shared := { server := sampleServer, file := none, held := [] }

/-- The reads of a match that ends in a draw with the ninth move. -/
def drawMoves : List (Option (List Char)) :=
  [some "1 1".toList, some "1 2".toList, some "1 3".toList, some "2 2".toList,
   some "2 1".toList, some "2 3".toList, some "3 2".toList, some "3 1".toList,
   some "3 3".toList]

/-! ## Outcome evaluation: `CheckWinner` -/

/-- The loop of `CheckWinner` unrolled: the eight lines are tested in the
order row 0, column 0, row 1, column 1, row 2, column 2, main diagonal,
anti-diagonal, and the scan for an empty cell comes last. -/
theorem CheckWinner_unfold (g : Game) :
    CheckWinner g =
      if g.board 0 0 ≠ "" ∧ g.board 0 0 = g.board 0 1 ∧ g.board 0 1 = g.board 0 2 then
        (g.board 0 0, true)
      else if g.board 0 0 ≠ "" ∧ g.board 0 0 = g.board 1 0 ∧ g.board 1 0 = g.board 2 0 then
        (g.board 0 0, true)
      else if g.board 1 0 ≠ "" ∧ g.board 1 0 = g.board 1 1 ∧ g.board 1 1 = g.board 1 2 then
        (g.board 1 0, true)
      else if g.board 0 1 ≠ "" ∧ g.board 0 1 = g.board 1 1 ∧ g.board 1 1 = g.board 2 1 then
        (g.board 0 1, true)
      else if g.board 2 0 ≠ "" ∧ g.board 2 0 = g.board 2 1 ∧ g.board 2 1 = g.board 2 2 then
        (g.board 2 0, true)
      else if g.board 0 2 ≠ "" ∧ g.board 0 2 = g.board 1 2 ∧ g.board 1 2 = g.board 2 2 then
        (g.board 0 2, true)
      else if g.board 0 0 ≠ "" ∧ g.board 0 0 = g.board 1 1 ∧ g.board 1 1 = g.board 2 2 then
        (g.board 0 0, true)
      else if g.board 0 2 ≠ "" ∧ g.board 0 2 = g.board 1 1 ∧ g.board 1 1 = g.board 2 0 then
        (g.board 0 2, true)
      else if boardHasEmpty g.board [0, 1, 2] then ("", false)
      else ("Draw", true) := by
  unfold CheckWinner
  simp only [checkRowsCols]
  split_ifs <;> rfl

theorem boardHasEmpty_iff (b : Board) : boardHasEmpty b [0, 1, 2] = true ↔ ¬ boardFull b := by
  simp only [boardHasEmpty, rowHasEmpty, boardFull, Fin.forall_fin_succ]
  simp
  tauto

theorem hasWonLine_iff (b : Board) :
    hasWonLine b ↔
      (b 0 0 ≠ "" ∧ b 0 0 = b 0 1 ∧ b 0 1 = b 0 2) ∨
      (b 0 0 ≠ "" ∧ b 0 0 = b 1 0 ∧ b 1 0 = b 2 0) ∨
      (b 1 0 ≠ "" ∧ b 1 0 = b 1 1 ∧ b 1 1 = b 1 2) ∨
      (b 0 1 ≠ "" ∧ b 0 1 = b 1 1 ∧ b 1 1 = b 2 1) ∨
      (b 2 0 ≠ "" ∧ b 2 0 = b 2 1 ∧ b 2 1 = b 2 2) ∨
      (b 0 2 ≠ "" ∧ b 0 2 = b 1 2 ∧ b 1 2 = b 2 2) ∨
      (b 0 0 ≠ "" ∧ b 0 0 = b 1 1 ∧ b 1 1 = b 2 2) ∨
      (b 0 2 ≠ "" ∧ b 0 2 = b 1 1 ∧ b 1 1 = b 2 0) := by
  simp only [hasWonLine, allLines, lineAll, List.mem_cons, List.mem_singleton, exists_eq_or_imp,
    exists_eq_left, List.not_mem_nil, false_and, exists_false, or_false, true_and]
  constructor
  · rintro (h | h | h | h | h | h | h | h) <;> obtain ⟨h0, h1, h2⟩ := h <;>
      simp_all
  · rintro (h | h | h | h | h | h | h | h) <;> obtain ⟨h0, h1, h2⟩ := h <;>
      simp_all

theorem hasLine_iff (b : Board) (m : String) :
    hasLine b m ↔
      (b 0 0 = m ∧ b 0 1 = m ∧ b 0 2 = m) ∨ (b 1 0 = m ∧ b 1 1 = m ∧ b 1 2 = m) ∨
      (b 2 0 = m ∧ b 2 1 = m ∧ b 2 2 = m) ∨ (b 0 0 = m ∧ b 1 0 = m ∧ b 2 0 = m) ∨
      (b 0 1 = m ∧ b 1 1 = m ∧ b 2 1 = m) ∨ (b 0 2 = m ∧ b 1 2 = m ∧ b 2 2 = m) ∨
      (b 0 0 = m ∧ b 1 1 = m ∧ b 2 2 = m) ∨ (b 0 2 = m ∧ b 1 1 = m ∧ b 2 0 = m) := by
  simp only [hasLine, allLines, lineAll, List.mem_cons, List.mem_singleton, exists_eq_or_imp,
    exists_eq_left, List.not_mem_nil, false_and, exists_false, or_false]

/-- The three ways `CheckWinner` can answer: the mark of a completed line, or
game continues, or draw; the last two only when no line is completed. -/
theorem CheckWinner_cases (g : Game) :
    (∃ w, w ≠ "" ∧ hasLine g.board w ∧ CheckWinner g = (w, true)) ∨
    (¬ hasWonLine g.board ∧ ¬ boardFull g.board ∧ CheckWinner g = ("", false)) ∨
    (¬ hasWonLine g.board ∧ boardFull g.board ∧ CheckWinner g = ("Draw", true)) := by
  generalize hr : CheckWinner g = r
  rw [CheckWinner_unfold] at hr
  split_ifs at hr with h1 h2 h3 h4 h5 h6 h7 h8 h9 <;> subst hr
  · exact Or.inl ⟨_, h1.1, (hasLine_iff _ _).2 (by simp [← h1.2.2, ← h1.2.1]), rfl⟩
  · exact Or.inl ⟨_, h2.1, (hasLine_iff _ _).2 (by simp [← h2.2.2, ← h2.2.1]), rfl⟩
  · exact Or.inl ⟨_, h3.1, (hasLine_iff _ _).2 (by simp [← h3.2.2, ← h3.2.1]), rfl⟩
  · exact Or.inl ⟨_, h4.1, (hasLine_iff _ _).2 (by simp [← h4.2.2, ← h4.2.1]), rfl⟩
  · exact Or.inl ⟨_, h5.1, (hasLine_iff _ _).2 (by simp [← h5.2.2, ← h5.2.1]), rfl⟩
  · exact Or.inl ⟨_, h6.1, (hasLine_iff _ _).2 (by simp [← h6.2.2, ← h6.2.1]), rfl⟩
  · exact Or.inl ⟨_, h7.1, (hasLine_iff _ _).2 (by simp [← h7.2.2, ← h7.2.1]), rfl⟩
  · exact Or.inl ⟨_, h8.1, (hasLine_iff _ _).2 (by simp [← h8.2.2, ← h8.2.1]), rfl⟩
  · refine Or.inr (Or.inl ⟨?_, (boardHasEmpty_iff _).1 h9, rfl⟩)
    rw [hasWonLine_iff]
    rintro (h | h | h | h | h | h | h | h)
    exacts [h1 h, h2 h, h3 h, h4 h, h5 h, h6 h, h7 h, h8 h]
  · refine Or.inr (Or.inr ⟨?_, ?_, rfl⟩)
    · rw [hasWonLine_iff]
      rintro (h | h | h | h | h | h | h | h)
      exacts [h1 h, h2 h, h3 h, h4 h, h5 h, h6 h, h7 h, h8 h]
    · by_contra hf
      exact h9 ((boardHasEmpty_iff _).2 hf)

/-- A line of three cells equal to a non-empty mark is a won line. -/
theorem hasWonLine_of_hasLine (b : Board) (m : String) (hm : m ≠ "") (h : hasLine b m) :
    hasWonLine b := by
  obtain ⟨l, hl, h1, h2, h3⟩ := h
  exact ⟨l, hl, by rw [h1]; exact hm, by rw [h1]; exact ⟨h1, h2, h3⟩⟩

/-- The mark of a line of three equal cells is the content of a cell. -/
theorem hasLine_cell (b : Board) (m : String) (h : hasLine b m) : ∃ i j, b i j = m := by
  obtain ⟨l, _, h1, _, _⟩ := h
  exact ⟨_, _, h1⟩

/-- A cell of a valid board that is not empty holds `X` or `O`. -/
theorem cellsValid_mark (b : Board) (hv : cellsValid b) (w : String) (hw : w ≠ "")
    (hc : ∃ i j, b i j = w) : w = X ∨ w = O := by
  obtain ⟨i, j, rfl⟩ := hc
  rcases hv i j with h | h | h
  · exact absurd h hw
  · exact Or.inl h
  · exact Or.inr h

/-- C1, as the code has it.  On a board whose cells are each empty, X or O,
and for a mark m in {X, O}: when CheckWinner returns (m, true), some row,
column or diagonal has all three cells equal to m; and when some row, column
or diagonal has all three cells equal to m while no line is entirely the other
mark, CheckWinner returns (m, true). -/
theorem c1_checkWinner_win (g : Game) (m : String) (hv : cellsValid g.board)
    (hm : m = X ∨ m = O) :
    (CheckWinner g = (m, true) → hasLine g.board m) ∧
    (hasLine g.board m → (∀ w, w = X ∨ w = O → hasLine g.board w → w = m) →
      CheckWinner g = (m, true)) := by
  have hne : m ≠ "" := by rcases hm with rfl | rfl <;> decide
  have hnd : m ≠ "Draw" := by rcases hm with rfl | rfl <;> decide
  rcases CheckWinner_cases g with ⟨w, hw, hl, hc⟩ | ⟨hn, _, hc⟩ | ⟨hn, _, hc⟩
  · refine ⟨fun h => ?_, fun _ hu => ?_⟩
    · rw [hc] at h
      rw [← (Prod.mk.inj h).1]
      exact hl
    · rw [hc, hu w (cellsValid_mark _ hv w hw (hasLine_cell _ _ hl)) hl]
  · refine ⟨fun h => ?_, fun hl _ => absurd (hasWonLine_of_hasLine _ _ hne hl) hn⟩
    rw [hc] at h
    simp at h
  · refine ⟨fun h => ?_, fun hl _ => absurd (hasWonLine_of_hasLine _ _ hne hl) hn⟩
    rw [hc] at h
    exact absurd (Prod.mk.inj h).1.symm hnd

/-- Witness for `c1_checkWinner_win`: the board with X on the first row. -/
theorem c1_checkWinner_win_witness :
    cellsValid (gameOfBoard (boardOf "X" "X" "X" "O" "O" "" "" "" "")).board ∧
    CheckWinner (gameOfBoard (boardOf "X" "X" "X" "O" "O" "" "" "" "")) = (X, true) ∧
    hasLine (gameOfBoard (boardOf "X" "X" "X" "O" "O" "" "" "" "")).board X :=
  ⟨by decide, by decide,
    (c1_checkWinner_win (gameOfBoard (boardOf "X" "X" "X" "O" "O" "" "" "" "")) X
      (by decide) (Or.inl rfl)).1 (by decide)⟩

/-- C1 as stated fails: with X on the whole first row and O on the whole
second row every cell is empty, X or O, and a row has all three cells equal
to O, yet `CheckWinner` returns (X, true) and not (O, true). -/
theorem c1_counterexample :
    cellsValid (gameOfBoard boardTwoLines).board ∧
    hasLine (gameOfBoard boardTwoLines).board O ∧
    CheckWinner (gameOfBoard boardTwoLines) = (X, true) ∧
    ¬ (CheckWinner (gameOfBoard boardTwoLines) = (O, true) ↔
        hasLine (gameOfBoard boardTwoLines).board O) := by
  decide

/-- C2.  On a board whose cells are each empty, X or O, `CheckWinner` returns
("Draw", true) exactly when no row, column or diagonal holds three identical
non-empty marks and all nine cells are non-empty, and it returns ("", false)
exactly when no such line exists and at least one cell is empty. -/
theorem c2_checkWinner_draw_or_continue (g : Game) (hv : cellsValid g.board) :
    (CheckWinner g = ("Draw", true) ↔ ¬ hasWonLine g.board ∧ ∀ i j, g.board i j ≠ "") ∧
    (CheckWinner g = ("", false) ↔ ¬ hasWonLine g.board ∧ ∃ i j, g.board i j = "") := by
  have hfull : (∃ i j, g.board i j = "") ↔ ¬ boardFull g.board := by
    simp [boardFull]
  rw [hfull]
  change (_ ↔ _ ∧ boardFull g.board) ∧ _
  rcases CheckWinner_cases g with ⟨w, hw, hl, hc⟩ | ⟨hn, hf, hc⟩ | ⟨hn, hf, hc⟩
  · have hwl := hasWonLine_of_hasLine _ _ hw hl
    have hwd : w ≠ "Draw" := by
      rcases cellsValid_mark _ hv w hw (hasLine_cell _ _ hl) with rfl | rfl <;> decide
    rw [hc]
    refine ⟨⟨fun h => ?_, fun h => absurd hwl h.1⟩, ⟨fun h => ?_, fun h => absurd hwl h.1⟩⟩
    · exact absurd (Prod.mk.inj h).1 hwd
    · simp at h
  · rw [hc]
    refine ⟨⟨fun h => ?_, fun h => absurd h.2 hf⟩, ⟨fun _ => ⟨hn, hf⟩, fun _ => rfl⟩⟩
    simp at h
  · rw [hc]
    refine ⟨⟨fun _ => ⟨hn, hf⟩, fun _ => rfl⟩, ⟨fun h => ?_, fun h => absurd hf h.2⟩⟩
    simp at h

/-- Witness for `c2_checkWinner_draw_or_continue`: a full board without a
line is a draw. -/
theorem c2_checkWinner_draw_or_continue_witness :
    cellsValid (gameOfBoard (boardOf "X" "O" "X" "X" "O" "O" "O" "X" "X")).board ∧
    CheckWinner (gameOfBoard (boardOf "X" "O" "X" "X" "O" "O" "O" "X" "X")) = ("Draw", true) :=
  ⟨by decide,
    (c2_checkWinner_draw_or_continue
      (gameOfBoard (boardOf "X" "O" "X" "X" "O" "O" "O" "X" "X")) (by decide)).1.2
      (by decide)⟩

/-! ## Move validation: `ValidateMove` -/

theorem idx3?_eq_some_iff (i : Int) (k : Fin 3) : idx3? i = some k ↔ (k.val : Int) = i := by
  unfold idx3?
  split
  · rename_i h
    simp only [Option.some.injEq]
    constructor
    · rintro rfl
      simp only
      omega
    · intro hk
      apply Fin.ext
      simp only
      omega
  · rename_i h
    constructor
    · intro hk
      exact absurd hk (by simp)
    · intro hk
      have := k.isLt
      omega

theorem idx3?_eq_none_iff (i : Int) : idx3? i = none ↔ (i < 0 ∨ 3 ≤ i) := by
  unfold idx3?
  split
  · rename_i h
    simp only [reduceCtorEq, false_iff]
    omega
  · rename_i h
    simp only [true_iff]
    omega

/-- Inside the grid the indexing `board[row][col]` yields the cell. -/
theorem Board.at?_eq_some_iff (b : Board) (row col : Int) (cell : String) :
    b.at? row col = some cell ↔
      ∃ i j : Fin 3, (i.val : Int) = row ∧ (j.val : Int) = col ∧ b i j = cell := by
  unfold Board.at?
  constructor
  · intro h
    split at h
    · rename_i i j hi hj
      exact ⟨i, j, (idx3?_eq_some_iff _ _).1 hi, (idx3?_eq_some_iff _ _).1 hj,
        Option.some.inj h⟩
    · exact absurd h (by simp)
  · rintro ⟨i, j, hi, hj, rfl⟩
    rw [(idx3?_eq_some_iff row i).2 hi, (idx3?_eq_some_iff col j).2 hj]

/-- C3.  For every game and all integers row and col, `ValidateMove` returns
(without panic, and leaving the game and so its board as they were) the
out-of-range error exactly when row or col lies outside [0,3), the occupied
error exactly when both are in range and board[row][col] is non-empty, and
nil exactly when both are in range and the cell is empty. -/
theorem c3_validateMove (g : Game) (row col : Int) :
    ∃ err : GoError, ValidateMove g row col = some (g, err) ∧
      (err = some "row and column must be between 1 and 3" ↔
        (row < 0 ∨ 3 ≤ row ∨ col < 0 ∨ 3 ≤ col)) ∧
      (err = some "cell already occupied" ↔
        ∃ i j : Fin 3, (i.val : Int) = row ∧ (j.val : Int) = col ∧ g.board i j ≠ "") ∧
      (err = none ↔
        ∃ i j : Fin 3, (i.val : Int) = row ∧ (j.val : Int) = col ∧ g.board i j = "") := by
  unfold ValidateMove
  by_cases hr : row < 0 ∨ row ≥ 3 ∨ col < 0 ∨ col ≥ 3
  · rw [if_pos hr]
    refine ⟨_, rfl, ⟨fun _ => hr, fun _ => rfl⟩, ⟨fun h => ?_, ?_⟩, ⟨fun h => ?_, ?_⟩⟩
    · exact absurd h (by decide)
    · rintro ⟨i, j, hi, hj, _⟩
      have := i.isLt
      have := j.isLt
      omega
    · exact absurd h (by simp)
    · rintro ⟨i, j, hi, hj, _⟩
      have := i.isLt
      have := j.isLt
      omega
  · rw [if_neg hr]
    have hrow : ∃ i : Fin 3, (i.val : Int) = row := ⟨⟨row.toNat, by omega⟩, by simp; omega⟩
    have hcol : ∃ j : Fin 3, (j.val : Int) = col := ⟨⟨col.toNat, by omega⟩, by simp; omega⟩
    obtain ⟨i, hi⟩ := hrow
    obtain ⟨j, hj⟩ := hcol
    have hat : g.board.at? row col = some (g.board i j) :=
      (Board.at?_eq_some_iff _ _ _ _).2 ⟨i, j, hi, hj, rfl⟩
    have huniq : ∀ (P : String → Prop),
        (∃ i' j' : Fin 3, (i'.val : Int) = row ∧ (j'.val : Int) = col ∧ P (g.board i' j')) ↔
          P (g.board i j) := by
      intro P
      constructor
      · rintro ⟨i', j', hi', hj', hP⟩
        have e1 : i' = i := Fin.ext (by omega)
        have e2 : j' = j := Fin.ext (by omega)
        rw [e1, e2] at hP
        exact hP
      · intro hP
        exact ⟨i, j, hi, hj, hP⟩
    rw [hat, huniq (fun c => c ≠ ""), huniq (fun c => c = "")]
    by_cases hc : g.board i j = ""
    · refine ⟨none, by simp [hc], ?_, ?_, ?_⟩
      · simp only [reduceCtorEq, false_iff]
        exact hr
      · simp [hc]
      · simp [hc]
    · refine ⟨some errOccupied, by simp [hc], ?_, ?_, ?_⟩
      · constructor
        · intro h
          exact absurd h (by decide)
        · intro h
          exact absurd h hr
      · simp [hc, errOccupied]
      · simp [hc]

/-! ## The turn loop: one pass -/

/-- `ValidateMove` never modifies the game. -/
theorem ValidateMove_game (g g3 : Game) (row col : Int) (err : GoError)
    (h : ValidateMove g row col = some (g3, err)) : g3 = g := by
  unfold ValidateMove at h
  split at h
  · exact (Prod.mk.inj (Option.some.inj h)).1.symm
  · split at h
    · exact absurd h (by simp)
    · split at h <;> exact (Prod.mk.inj (Option.some.inj h)).1.symm

/-- When `ValidateMove` returns nil, both indices are inside the grid and the
cell is empty. -/
theorem ValidateMove_nil (g g3 : Game) (row col : Int)
    (h : ValidateMove g row col = some (g3, none)) :
    ∃ i j : Fin 3, idx3? row = some i ∧ idx3? col = some j ∧ g.board i j = "" := by
  unfold ValidateMove at h
  split at h
  · exact absurd (Prod.mk.inj (Option.some.inj h)).2 (by simp)
  · split at h
    · exact absurd h (by simp)
    · rename_i cell hcell
      obtain ⟨i, j, hi, hj, hc⟩ := (Board.at?_eq_some_iff _ _ _ _).1 hcell
      split at h
      · exact absurd (Prod.mk.inj (Option.some.inj h)).2 (by simp)
      · rename_i hne
        refine ⟨i, j, (idx3?_eq_some_iff _ _).2 hi, (idx3?_eq_some_iff _ _).2 hj, ?_⟩
        rw [hc]
        exact not_not.1 hne

theorem SetMove_eq (g : Game) (row col : Int) (i j : Fin 3) (hi : idx3? row = some i)
    (hj : idx3? col = some j) :
    SetMove g row col = some { g with board := g.board.set i j (markOf g) } := by
  unfold SetMove
  simp only [hi, hj, markOf]

/-- Writing a mark into an empty cell leaves every non-empty cell as it was. -/
theorem Board.set_preserves (b : Board) (i j : Fin 3) (mark : String) (he : b i j = "")
    (i' j' : Fin 3) (hne : b i' j' ≠ "") : b.set i j mark i' j' = b i' j' := by
  unfold Board.set
  split
  · rename_i h
    rw [h.1, h.2] at hne
    exact absurd he hne
  · rfl

/-- One pass through the loop body keeps every non-empty cell. -/
theorem iteration_preserves (s : Server) (g : Game) (input : Option (List Char))
    (out : Path × Server × Game) (h : iteration s g input = some out) (i j : Fin 3)
    (hne : g.board i j ≠ "") : out.2.2.board i j = g.board i j := by
  unfold iteration at h
  simp only at h
  split at h
  · exact absurd h (by simp)
  · split at h
    · cases h
      rfl
    · split at h
      · cases h
        rfl
      · split at h
        · exact absurd h (by simp)
        · rename_i hv
          cases h
          rw [ValidateMove_game _ _ _ _ _ hv]
          rfl
        · rename_i g3 hv
          have hg3 := ValidateMove_game _ _ _ _ _ hv
          obtain ⟨i0, j0, hi0, hj0, he⟩ := ValidateMove_nil _ _ _ _ hv
          subst hg3
          rw [SetMove_eq _ _ _ i0 j0 hi0 hj0] at h
          simp only at h
          split at h
          · split at h
            · exact absurd h (by simp)
            · cases h
              exact Board.set_preserves _ _ _ _ he _ _ hne
          · cases h
            exact Board.set_preserves _ _ _ _ he _ _ hne

theorem length_sendAll (conns : List Conn) (text : String) :
    (sendAll conns text).length = conns.length := by
  simp [sendAll]

theorem length_writeAt (conns : List Conn) (k : Nat) (text : String) :
    (writeAt conns k text).length = conns.length := by
  induction conns generalizing k with
  | nil => rfl
  | cons c rest ih =>
    cases k with
    | zero => rfl
    | succ k => simp [writeAt, ih]

/-- The answer of `ValidateMove` depends on the board only. -/
theorem ValidateMove_congr (g g' : Game) (hb : g'.board = g.board) (row col : Int)
    (g3 : Game) (err : GoError) (h : ValidateMove g' row col = some (g3, err)) :
    ValidateMove g row col = some (g, err) := by
  unfold ValidateMove at h ⊢
  rw [hb] at h
  split at h
  · rename_i hr
    rw [if_pos hr]
    rw [(Prod.mk.inj (Option.some.inj h)).2]
  · rename_i hr
    rw [if_neg hr]
    split at h
    · exact absurd h (by simp)
    · rename_i cell hcell
      split at h
      · rename_i hc
        rw [if_pos hc, (Prod.mk.inj (Option.some.inj h)).2]
      · rename_i hc
        rw [if_neg hc, (Prod.mk.inj (Option.some.inj h)).2]

/-- What one pass through the loop body does, path by path.  The fields
`gameId` and `Usernames` and the number of connections never change; the
server changes only on the path `finished`, the turn only on the path
`switched`, the board only on these two. -/
theorem iteration_spec (s : Server) (g : Game) (input : Option (List Char))
    (out : Path × Server × Game) (h : iteration s g input = some out) :
    out.2.2.gameId = g.gameId ∧ out.2.2.Usernames = g.Usernames ∧
    out.2.2.conns.length = g.conns.length ∧
    ((out.1 = Path.disconnected ∧ input = none ∧ out.2.1 = s ∧ out.2.2.board = g.board ∧
        out.2.2.currentPlayer = g.currentPlayer ∧ out.2.2.playerOneTurn = g.playerOneTurn) ∨
     (out.1 = Path.parseError ∧ (∃ line, input = some line ∧ (parseMove line).2.2 ≠ none) ∧
        out.2.1 = s ∧ out.2.2.board = g.board ∧
        out.2.2.currentPlayer = g.currentPlayer ∧ out.2.2.playerOneTurn = g.playerOneTurn) ∨
     (out.1 = Path.invalidMove ∧
        (∃ line row col err, input = some line ∧ parseMove line = (row, col, none) ∧
          ValidateMove g row col = some (g, some err)) ∧
        out.2.1 = s ∧ out.2.2.board = g.board ∧
        out.2.2.currentPlayer = g.currentPlayer ∧ out.2.2.playerOneTurn = g.playerOneTurn) ∨
     (out.1 = Path.switched ∧
        (∃ line row col i j, input = some line ∧ parseMove line = (row, col, none) ∧
          ValidateMove g row col = some (g, none) ∧
          idx3? row = some i ∧ idx3? col = some j ∧ g.board i j = "" ∧
          out.2.2.board = g.board.set i j (markOf g)) ∧
        (CheckWinner out.2.2).2 = false ∧ out.2.1 = s ∧
        out.2.2.currentPlayer = wrapInt (1 - g.currentPlayer) ∧
        out.2.2.playerOneTurn = !g.playerOneTurn) ∨
     (out.1 = Path.finished ∧
        (∃ line row col i j, input = some line ∧ parseMove line = (row, col, none) ∧
          ValidateMove g row col = some (g, none) ∧
          idx3? row = some i ∧ idx3? col = some j ∧ g.board i j = "" ∧
          out.2.2.board = g.board.set i j (markOf g)) ∧
        (CheckWinner out.2.2).2 = true ∧
        SetGameHistory s out.2.2 (CheckWinner out.2.2).1 true = some out.2.1 ∧
        out.2.2.currentPlayer = g.currentPlayer ∧
        out.2.2.playerOneTurn = g.playerOneTurn)) := by
  unfold iteration at h
  simp only at h
  split at h
  · exact absurd h (by simp)
  · split at h
    · cases h
      refine ⟨rfl, rfl, by simp [length_sendAll, length_writeAt, PrintBoard], ?_⟩
      exact Or.inl ⟨rfl, rfl, rfl, rfl, rfl, rfl⟩
    · rename_i move
      split at h
      · rename_i r c err hp
        cases h
        refine ⟨rfl, rfl, by simp [length_sendAll, length_writeAt, PrintBoard], ?_⟩
        exact Or.inr (Or.inl ⟨rfl, ⟨move, rfl, by rw [hp]; simp⟩, rfl, rfl, rfl, rfl⟩)
      · rename_i row col hp
        split at h
        · exact absurd h (by simp)
        · rename_i g3 err hv
          have hg3 := ValidateMove_game _ _ _ _ _ hv
          have hv0 := ValidateMove_congr g _ (by rfl) _ _ _ _ hv
          cases h
          subst hg3
          refine ⟨rfl, rfl, by simp [length_sendAll, length_writeAt, PrintBoard], ?_⟩
          exact Or.inr (Or.inr (Or.inl
            ⟨rfl, ⟨move, row, col, err, rfl, hp, hv0⟩, rfl, rfl, rfl, rfl⟩))
        · rename_i g3 hv
          have hg3 := ValidateMove_game _ _ _ _ _ hv
          have hv0 := ValidateMove_congr g _ (by rfl) _ _ _ _ hv
          obtain ⟨i0, j0, hi0, hj0, he⟩ := ValidateMove_nil _ _ _ _ hv
          subst hg3
          rw [SetMove_eq _ _ _ i0 j0 hi0 hj0] at h
          simp only at h
          split at h
          · rename_i hfin
            split at h
            · exact absurd h (by simp)
            · rename_i s1 hs1
              cases h
              refine ⟨rfl, rfl, by simp [length_sendAll, length_writeAt, PrintBoard], ?_⟩
              exact Or.inr (Or.inr (Or.inr (Or.inr
                ⟨rfl, ⟨move, row, col, i0, j0, rfl, hp, hv0, hi0, hj0, he, rfl⟩,
                  hfin, hs1, rfl, rfl⟩)))
          · rename_i hfin
            cases h
            refine ⟨rfl, rfl, by simp [length_sendAll, length_writeAt, PrintBoard, SwitchTurn], ?_⟩
            exact Or.inr (Or.inr (Or.inr (Or.inl
              ⟨rfl, ⟨move, row, col, i0, j0, rfl, hp, hv0, hi0, hj0, he, rfl⟩,
                by simpa using hfin, rfl, rfl, rfl⟩)))

/-- `ValidateMove` never panics. -/
theorem ValidateMove_total (g : Game) (row col : Int) :
    ∃ err, ValidateMove g row col = some (g, err) := by
  unfold ValidateMove
  split
  · exact ⟨_, rfl⟩
  · rename_i hr
    have hi : idx3? row = some ⟨row.toNat, by omega⟩ :=
      (idx3?_eq_some_iff _ _).2 (by simp; omega)
    have hj : idx3? col = some ⟨col.toNat, by omega⟩ :=
      (idx3?_eq_some_iff _ _).2 (by simp; omega)
    simp only [Board.at?, hi, hj]
    generalize g.board _ _ = cell
    by_cases hc : cell ≠ ""
    · exact ⟨_, if_pos hc⟩
    · exact ⟨_, if_neg hc⟩

theorem connIndex?_PrintBoard (g : Game) :
    connIndex? (PrintBoard g).conns (PrintBoard g).currentPlayer =
      connIndex? g.conns g.currentPlayer := by
  simp [connIndex?, PrintBoard, length_sendAll]

/-- With two usernames on record `SetGameHistory` does not panic. -/
theorem SetGameHistory_isSome (s : Server) (g : Game) (winner : String) (finished : Bool)
    (hu : 2 ≤ g.Usernames.length) : (SetGameHistory s g winner finished).isSome := by
  unfold SetGameHistory
  have h0 : g.Usernames[0]? = some (g.Usernames[0]) := List.getElem?_eq_getElem (by omega)
  have h1 : g.Usernames[1]? = some (g.Usernames[1]) := List.getElem?_eq_getElem (by omega)
  rw [h0, h1]
  rfl

/-- One pass through the loop body does not panic when the active slot
indexes a connection and two usernames are on record. -/
theorem iteration_isSome (s : Server) (g : Game) (input : Option (List Char))
    (hconn : (connIndex? g.conns g.currentPlayer).isSome) (hu : 2 ≤ g.Usernames.length) :
    (iteration s g input).isSome := by
  obtain ⟨k, hk⟩ := Option.isSome_iff_exists.1 hconn
  unfold iteration
  simp only [connIndex?_PrintBoard, hk]
  cases input with
  | none => rfl
  | some move =>
    simp only
    rcases hp : parseMove move with ⟨row, col, err⟩
    cases err with
    | some e => rfl
    | none =>
      simp only
      obtain ⟨err, hv⟩ := ValidateMove_total
        { PrintBoard g with conns := writeAt (PrintBoard g).conns k promptText } row col
      rw [hv]
      cases err with
      | some e => rfl
      | none =>
        simp only
        obtain ⟨i0, j0, hi0, hj0, _⟩ := ValidateMove_nil _ _ _ _ hv
        rw [SetMove_eq _ _ _ i0 j0 hi0 hj0]
        simp only
        split
        · obtain ⟨s1, hs1⟩ := Option.isSome_iff_exists.1
            (SetGameHistory_isSome s
              { PrintBoard g with
                conns := writeAt (PrintBoard g).conns k promptText
                board := Board.set (PrintBoard g).board i0 j0
                  (markOf { PrintBoard g with
                    conns := writeAt (PrintBoard g).conns k promptText }) }
              (CheckWinner
                { PrintBoard g with
                  conns := writeAt (PrintBoard g).conns k promptText
                  board := Board.set (PrintBoard g).board i0 j0
                    (markOf { PrintBoard g with
                      conns := writeAt (PrintBoard g).conns k promptText }) }).1 true hu)
          rw [hs1]
          rfl
        · rfl

/-- A line that `parseMove` or `ValidateMove` rejects sends the loop body down
one of its two `continue` paths, whatever else the state is, as long as the
active slot indexes a connection. -/
theorem iteration_rejected (s : Server) (g : Game) (line : List Char)
    (hconn : (connIndex? g.conns g.currentPlayer).isSome)
    (hrej : (parseMove line).2.2 ≠ none ∨
      ∃ g3 err, ValidateMove g (parseMove line).1 (parseMove line).2.1 = some (g3, some err)) :
    ∃ p g1, iteration s g (some line) = some (p, s, g1) ∧
      (p = Path.parseError ∨ p = Path.invalidMove) := by
  obtain ⟨k, hk⟩ := Option.isSome_iff_exists.1 hconn
  unfold iteration
  simp only [connIndex?_PrintBoard, hk]
  rcases hp : parseMove line with ⟨row, col, err⟩
  rw [hp] at hrej
  cases err with
  | some e => exact ⟨_, _, rfl, Or.inl rfl⟩
  | none =>
    simp only
    rcases hrej with hrej | ⟨g3, err, hrej⟩
    · exact absurd rfl hrej
    · have hv := ValidateMove_congr
        { PrintBoard g with conns := writeAt (PrintBoard g).conns k promptText } g rfl
        row col g3 (some err) hrej
      rw [hv]
      exact ⟨_, _, rfl, Or.inr rfl⟩

/-- C5.  For every game state whose active slot indexes a connection and every
input line on which `parseMove` returns an error or `ValidateMove` returns an
error, one pass through the turn loop completes on a `continue` path, leaves
the board, `currentPlayer` and `playerOneTurn` unchanged, leaves the server
(and so its history) as it was, and the loop is still awaiting a move. -/
theorem c5_rejected_line_changes_nothing (s : Server) (g : Game) (line : List Char)
    (hconn : (connIndex? g.conns g.currentPlayer).isSome)
    (hrej : (parseMove line).2.2 ≠ none ∨
      ∃ g3 err, ValidateMove g (parseMove line).1 (parseMove line).2.1 = some (g3, some err)) :
    ∃ p g1, iteration s g (some line) = some (p, s, g1) ∧
      (p = Path.parseError ∨ p = Path.invalidMove) ∧
      g1.board = g.board ∧ g1.currentPlayer = g.currentPlayer ∧
      g1.playerOneTurn = g.playerOneTurn ∧
      Start s g [some line] =
        some { trace := [p], status := Status.awaiting, server := s, game := g1 } := by
  obtain ⟨p, g1, hit, hp⟩ := iteration_rejected s g line hconn hrej
  have hspec := (iteration_spec s g (some line) (p, s, g1) hit).2.2.2
  refine ⟨p, g1, hit, hp, ?_⟩
  have hstart : Start s g [some line] =
      some { trace := [p], status := Status.awaiting, server := s, game := g1 } := by
    rcases hp with rfl | rfl <;> simp [Start, hit]
  rcases hp with rfl | rfl
  · rcases hspec with h | h | h | h | h
    · exact absurd h.1 (by simp)
    · exact ⟨h.2.2.2.1, h.2.2.2.2.1, h.2.2.2.2.2, hstart⟩
    · exact absurd h.1 (by simp)
    · exact absurd h.1 (by simp)
    · exact absurd h.1 (by simp)
  · rcases hspec with h | h | h | h | h
    · exact absurd h.1 (by simp)
    · exact absurd h.1 (by simp)
    · exact ⟨h.2.2.2.1, h.2.2.2.2.1, h.2.2.2.2.2, hstart⟩
    · exact absurd h.1 (by simp)
    · exact absurd h.1 (by simp)

/-- Witness for `c5_rejected_line_changes_nothing`: the line "a b" sent to a
fresh game. -/
theorem c5_rejected_line_changes_nothing_witness :
    ∃ p g1, iteration sampleServer sampleGame (some "a b".toList) = some (p, sampleServer, g1) ∧
      (p = Path.parseError ∨ p = Path.invalidMove) ∧
      g1.board = sampleGame.board ∧ g1.currentPlayer = sampleGame.currentPlayer ∧
      g1.playerOneTurn = sampleGame.playerOneTurn ∧
      Start sampleServer sampleGame [some "a b".toList] =
        some { trace := [p], status := Status.awaiting, server := sampleServer, game := g1 } :=
  c5_rejected_line_changes_nothing sampleServer sampleGame "a b".toList (by decide)
    (Or.inl (by decide))

/-! ## The turn loop: runs -/

theorem Start_cons_none (s : Server) (g : Game) (input : Option (List Char))
    (rest : List (Option (List Char))) (hit : iteration s g input = none) :
    Start s g (input :: rest) = none := by
  simp [Start, hit]

theorem Start_cons_disconnected (s s1 : Server) (g g1 : Game) (input : Option (List Char))
    (rest : List (Option (List Char)))
    (hit : iteration s g input = some (Path.disconnected, s1, g1)) :
    Start s g (input :: rest) =
      some { trace := [Path.disconnected], status := Status.stopped, server := s1,
             game := g1 } := by
  simp [Start, hit]

theorem Start_cons_finished (s s1 : Server) (g g1 : Game) (input : Option (List Char))
    (rest : List (Option (List Char)))
    (hit : iteration s g input = some (Path.finished, s1, g1)) :
    Start s g (input :: rest) =
      some { trace := [Path.finished], status := Status.stopped, server := s1,
             game := closeAll g1 } := by
  simp [Start, hit]

theorem Start_cons_continue (s s1 : Server) (g g1 : Game) (input : Option (List Char))
    (rest : List (Option (List Char))) (p : Path)
    (hit : iteration s g input = some (p, s1, g1))
    (hp : p = Path.parseError ∨ p = Path.invalidMove ∨ p = Path.switched) :
    Start s g (input :: rest) =
      (Start s1 g1 rest).map (fun r => { r with trace := p :: r.trace }) := by
  rcases hp with rfl | rfl | rfl <;> simp only [Start, hit] <;>
    cases Start s1 g1 rest <;> rfl

/-- The five paths. -/
theorem Path.cases5 (p : Path) :
    p = Path.disconnected ∨ p = Path.finished ∨
      (p = Path.parseError ∨ p = Path.invalidMove ∨ p = Path.switched) := by
  cases p <;> simp

/-- Running on `pre ++ post` is running on `pre` and, when the loop is then
still awaiting a move, going on with `post` from the state reached. -/
theorem Start_append (pre post : List (Option (List Char))) (s : Server) (g : Game) (r1 : Run)
    (h1 : Start s g pre = some r1) :
    Start s g (pre ++ post) =
      if r1.status = Status.awaiting then
        (Start r1.server r1.game post).map (fun r2 => { r2 with trace := r1.trace ++ r2.trace })
      else some r1 := by
  induction pre generalizing s g r1 with
  | nil =>
    simp only [Start, Option.some.injEq] at h1
    subst h1
    simp only [List.nil_append, if_true]
    cases Start s g post <;> rfl
  | cons input rest ih =>
    cases hit : iteration s g input with
    | none =>
      rw [Start_cons_none _ _ _ _ hit] at h1
      exact absurd h1 (by simp)
    | some out =>
      obtain ⟨p, s1, g1⟩ := out
      rcases Path.cases5 p with rfl | rfl | hp
      · rw [Start_cons_disconnected _ _ _ _ _ _ hit] at h1
        rw [List.cons_append, Start_cons_disconnected _ _ _ _ _ _ hit]
        cases h1
        simp
      · rw [Start_cons_finished _ _ _ _ _ _ hit] at h1
        rw [List.cons_append, Start_cons_finished _ _ _ _ _ _ hit]
        cases h1
        simp
      · rw [Start_cons_continue _ _ _ _ _ _ _ hit hp] at h1
        rw [List.cons_append, Start_cons_continue _ _ _ _ _ _ _ hit hp]
        cases hr : Start s1 g1 rest with
        | none =>
          rw [hr] at h1
          exact absurd h1 (by simp)
        | some r =>
          rw [hr] at h1
          simp only [Option.map_some', Option.some.injEq] at h1
          subst h1
          rw [ih s1 g1 r hr]
          simp only
          split
          · cases Start r.server r.game post <;> simp
          · simp

/-- A run keeps every cell that was non-empty at its start. -/
theorem Start_preserves (inputs : List (Option (List Char))) (s : Server) (g : Game) (r : Run)
    (h : Start s g inputs = some r) (i j : Fin 3) (hne : g.board i j ≠ "") :
    r.game.board i j = g.board i j := by
  induction inputs generalizing s g r with
  | nil =>
    simp only [Start, Option.some.injEq] at h
    subst h
    rfl
  | cons input rest ih =>
    cases hit : iteration s g input with
    | none =>
      rw [Start_cons_none _ _ _ _ hit] at h
      exact absurd h (by simp)
    | some out =>
      have hstep := iteration_preserves s g input out hit i j hne
      obtain ⟨p, s1, g1⟩ := out
      rcases Path.cases5 p with rfl | rfl | hp
      · rw [Start_cons_disconnected _ _ _ _ _ _ hit] at h
        cases h
        exact hstep
      · rw [Start_cons_finished _ _ _ _ _ _ hit] at h
        cases h
        exact hstep
      · rw [Start_cons_continue _ _ _ _ _ _ _ hit hp] at h
        cases hr : Start s1 g1 rest with
        | none =>
          rw [hr] at h
          exact absurd h (by simp)
        | some r0 =>
          rw [hr] at h
          simp only [Option.map_some', Option.some.injEq] at h
          subst h
          have h2 := ih s1 g1 r0 hr (by rw [hstep]; exact hne)
          simp only at hstep
          rw [← hstep]
          exact h2

/-- C4.  At any point of a run of `Game.Start` (from any game state, reached
after the reads `pre`), a cell that is non-empty holds the same mark after one
more pass through the turn loop on any input, and at every later point of the
run (after the further reads `post`): a cell, once non-empty, never changes. -/
theorem c4_nonempty_cell_never_changes (s : Server) (g : Game)
    (pre post : List (Option (List Char))) (input : Option (List Char))
    (r1 r2 : Run) (out : Path × Server × Game)
    (h1 : Start s g pre = some r1)
    (hit : iteration r1.server r1.game input = some out)
    (h2 : Start s g (pre ++ post) = some r2)
    (i j : Fin 3) (hne : r1.game.board i j ≠ "") :
    out.2.2.board i j = r1.game.board i j ∧ r2.game.board i j = r1.game.board i j := by
  refine ⟨iteration_preserves _ _ _ _ hit i j hne, ?_⟩
  rw [Start_append pre post s g r1 h1] at h2
  split at h2
  · cases hr : Start r1.server r1.game post with
    | none =>
      rw [hr] at h2
      exact absurd h2 (by simp)
    | some r =>
      rw [hr] at h2
      simp only [Option.map_some', Option.some.injEq] at h2
      subst h2
      exact Start_preserves post _ _ r hr i j hne
  · cases h2
    rfl

/-- Witness for `c4_nonempty_cell_never_changes`: after the move "1 1" the
cell (0,0) holds X; it still does after the rejected line "1 1" and after the
further moves "2 2" and "1 2". -/
theorem c4_nonempty_cell_never_changes_witness :
    ∃ r1 r2 out,
      Start sampleServer sampleGame [some "1 1".toList] = some r1 ∧
      iteration r1.server r1.game (some "1 1".toList) = some out ∧
      Start sampleServer sampleGame
        ([some "1 1".toList] ++ [some "2 2".toList, some "1 2".toList]) = some r2 ∧
      r1.game.board 0 0 = "X" ∧ out.2.2.board 0 0 = "X" ∧ r2.game.board 0 0 = "X" ∧
      r2.game.board 0 1 = "X" ∧ r2.game.board 1 1 = "O" :=
  ⟨_, _, _, rfl, rfl, rfl, rfl,
    (c4_nonempty_cell_never_changes sampleServer sampleGame [some "1 1".toList]
      [some "2 2".toList, some "1 2".toList] (some "1 1".toList) _ _ _ rfl rfl rfl 0 0
      (by decide)).1,
    (c4_nonempty_cell_never_changes sampleServer sampleGame [some "1 1".toList]
      [some "2 2".toList, some "1 2".toList] (some "1 1".toList) _ _ _ rfl rfl rfl 0 0
      (by decide)).2, rfl, rfl⟩

/-! ## Turn alternation -/

theorem wrapInt_one_sub_zero : wrapInt (1 - 0) = 1 := by decide

theorem wrapInt_one_sub_one : wrapInt (1 - 1) = 0 := by decide

theorem TurnInv_NewGame (conns : List Conn) (usernames : List String) (gameId : String) :
    TurnInv (NewGame conns usernames gameId) := Or.inl ⟨rfl, rfl⟩

/-- One pass keeps the turn indicators in agreement; it flips them on the
path `switched` and keeps them on every other path. -/
theorem iteration_turn (s : Server) (g : Game) (input : Option (List Char))
    (out : Path × Server × Game) (h : iteration s g input = some out) (hinv : TurnInv g) :
    TurnInv out.2.2 ∧
    (out.1 = Path.switched → out.2.2.currentPlayer = 1 - g.currentPlayer) ∧
    (out.1 ≠ Path.switched → out.2.2.currentPlayer = g.currentPlayer) := by
  have hspec := (iteration_spec s g input out h).2.2.2
  have hsame : out.2.2.currentPlayer = g.currentPlayer →
      out.2.2.playerOneTurn = g.playerOneTurn → TurnInv out.2.2 := by
    intro h1 h2
    unfold TurnInv
    rw [h1, h2]
    exact hinv
  rcases hspec with h | h | h | h | h
  · exact ⟨hsame h.2.2.2.2.1 h.2.2.2.2.2, fun hp => absurd (h.1 ▸ hp) (by simp), fun _ =>
      h.2.2.2.2.1⟩
  · exact ⟨hsame h.2.2.2.2.1 h.2.2.2.2.2, fun hp => absurd (h.1 ▸ hp) (by simp), fun _ =>
      h.2.2.2.2.1⟩
  · exact ⟨hsame h.2.2.2.2.1 h.2.2.2.2.2, fun hp => absurd (h.1 ▸ hp) (by simp), fun _ =>
      h.2.2.2.2.1⟩
  · obtain ⟨hp, _, _, _, hcp, hpt⟩ := h
    have key : TurnInv out.2.2 ∧ out.2.2.currentPlayer = 1 - g.currentPlayer := by
      rcases hinv with ⟨h0, ht⟩ | ⟨h1, hf⟩
      · rw [h0] at hcp ⊢
        rw [ht] at hpt
        rw [wrapInt_one_sub_zero] at hcp
        exact ⟨Or.inr ⟨hcp, hpt⟩, hcp⟩
      · rw [h1] at hcp ⊢
        rw [hf] at hpt
        rw [wrapInt_one_sub_one] at hcp
        exact ⟨Or.inl ⟨hcp, hpt⟩, hcp⟩
    exact ⟨key.1, fun _ => key.2, fun hne => absurd hp hne⟩
  · exact ⟨hsame h.2.2.2.2.1 h.2.2.2.2.2, fun hp => absurd (h.1 ▸ hp) (by simp), fun _ =>
      h.2.2.2.2.1⟩

/-- A run keeps the turn indicators in agreement. -/
theorem Start_turnInv (inputs : List (Option (List Char))) (s : Server) (g : Game) (r : Run)
    (h : Start s g inputs = some r) (hinv : TurnInv g) : TurnInv r.game := by
  induction inputs generalizing s g r with
  | nil =>
    simp only [Start, Option.some.injEq] at h
    subst h
    exact hinv
  | cons input rest ih =>
    cases hit : iteration s g input with
    | none =>
      rw [Start_cons_none _ _ _ _ hit] at h
      exact absurd h (by simp)
    | some out =>
      have hstep := (iteration_turn s g input out hit hinv).1
      obtain ⟨p, s1, g1⟩ := out
      rcases Path.cases5 p with rfl | rfl | hp
      · rw [Start_cons_disconnected _ _ _ _ _ _ hit] at h
        cases h
        exact hstep
      · rw [Start_cons_finished _ _ _ _ _ _ hit] at h
        cases h
        exact hstep
      · rw [Start_cons_continue _ _ _ _ _ _ _ hit hp] at h
        cases hr : Start s1 g1 rest with
        | none =>
          rw [hr] at h
          exact absurd h (by simp)
        | some r0 =>
          rw [hr] at h
          simp only [Option.map_some', Option.some.injEq] at h
          subst h
          exact ih s1 g1 r0 hr hstep

/-- While the loop is awaiting a move, the active slot is the starting slot
advanced by the number of applied moves, modulo 2. -/
theorem Start_currentPlayer (inputs : List (Option (List Char))) (s : Server) (g : Game)
    (r : Run) (h : Start s g inputs = some r) (hinv : TurnInv g)
    (hs : r.status = Status.awaiting) :
    r.game.currentPlayer = (g.currentPlayer + (appliedMoves r.trace : Int)) % 2 := by
  induction inputs generalizing s g r with
  | nil =>
    simp only [Start, Option.some.injEq] at h
    subst h
    simp only [appliedMoves]
    rcases hinv with ⟨h0, _⟩ | ⟨h1, _⟩
    · rw [h0]
      rfl
    · rw [h1]
      rfl
  | cons input rest ih =>
    cases hit : iteration s g input with
    | none =>
      rw [Start_cons_none _ _ _ _ hit] at h
      exact absurd h (by simp)
    | some out =>
      have hstep := iteration_turn s g input out hit hinv
      obtain ⟨p, s1, g1⟩ := out
      rcases Path.cases5 p with rfl | rfl | hp
      · rw [Start_cons_disconnected _ _ _ _ _ _ hit] at h
        cases h
        exact absurd hs (by simp)
      · rw [Start_cons_finished _ _ _ _ _ _ hit] at h
        cases h
        exact absurd hs (by simp)
      · rw [Start_cons_continue _ _ _ _ _ _ _ hit hp] at h
        cases hr : Start s1 g1 rest with
        | none =>
          rw [hr] at h
          exact absurd h (by simp)
        | some r0 =>
          rw [hr] at h
          simp only [Option.map_some', Option.some.injEq] at h
          subst h
          have h2 := ih s1 g1 r0 hr hstep.1 hs
          simp only at h2 hstep ⊢
          rw [h2]
          have hg : g.currentPlayer = 0 ∨ g.currentPlayer = 1 := by
            rcases hinv with ⟨h0, _⟩ | ⟨h1, _⟩
            · exact Or.inl h0
            · exact Or.inr h1
          rcases hp with rfl | rfl | rfl
          · rw [hstep.2.2 (by simp)]
            simp [appliedMoves]
          · rw [hstep.2.2 (by simp)]
            simp [appliedMoves]
          · rw [hstep.2.1 rfl]
            simp only [appliedMoves, true_or, if_true, Nat.cast_add, Nat.cast_one]
            omega

/-- C6.  Starting from `NewGame`, after any sequence of reads of which exactly
N were accepted and applied as moves, and with the loop still awaiting a move
(no terminal outcome, no disconnect), `currentPlayer` equals N mod 2. -/
theorem c6_turn_alternation (s : Server) (conns : List Conn) (usernames : List String)
    (gameId : String) (inputs : List (Option (List Char))) (r : Run)
    (h : Start s (NewGame conns usernames gameId) inputs = some r)
    (hs : r.status = Status.awaiting) :
    r.game.currentPlayer = (appliedMoves r.trace : Int) % 2 := by
  have h2 := Start_currentPlayer inputs s _ r h (TurnInv_NewGame _ _ _) hs
  rw [h2]
  simp [NewGame]

/-- Witness for `c6_turn_alternation`: after "1 1", a rejected "1 1" and
"2 2", two moves were applied and slot 0 is active again. -/
theorem c6_turn_alternation_witness :
    ∃ r, Start sampleServer (NewGame [⟨[], false⟩, ⟨[], false⟩] ["alice", "bob"] "match-1")
        [some "1 1".toList, some "1 1".toList, some "2 2".toList] = some r ∧
      r.trace = [Path.switched, Path.invalidMove, Path.switched] ∧
      appliedMoves r.trace = 2 ∧ r.game.currentPlayer = 0 :=
  ⟨_, rfl, rfl, rfl,
    c6_turn_alternation sampleServer [⟨[], false⟩, ⟨[], false⟩] ["alice", "bob"] "match-1"
      [some "1 1".toList, some "1 1".toList, some "2 2".toList] _ rfl rfl⟩

/-- Until a move is applied the active slot stays where it started. -/
theorem Start_no_move (inputs : List (Option (List Char))) (s : Server) (g : Game)
    (r : Run) (h : Start s g inputs = some r) (hinv : TurnInv g)
    (h0 : appliedMoves r.trace = 0) : r.game.currentPlayer = g.currentPlayer := by
  induction inputs generalizing s g r with
  | nil =>
    simp only [Start, Option.some.injEq] at h
    subst h
    rfl
  | cons input rest ih =>
    cases hit : iteration s g input with
    | none =>
      rw [Start_cons_none _ _ _ _ hit] at h
      exact absurd h (by simp)
    | some out =>
      have hstep := iteration_turn s g input out hit hinv
      obtain ⟨p, s1, g1⟩ := out
      rcases Path.cases5 p with rfl | rfl | hp
      · rw [Start_cons_disconnected _ _ _ _ _ _ hit] at h
        cases h
        exact hstep.2.2 (by simp)
      · rw [Start_cons_finished _ _ _ _ _ _ hit] at h
        cases h
        simp [appliedMoves] at h0
      · rw [Start_cons_continue _ _ _ _ _ _ _ hit hp] at h
        cases hr : Start s1 g1 rest with
        | none =>
          rw [hr] at h
          exact absurd h (by simp)
        | some r0 =>
          rw [hr] at h
          simp only [Option.map_some', Option.some.injEq] at h
          subst h
          simp only [appliedMoves] at h0
          have h00 : appliedMoves r0.trace = 0 := by omega
          have h2 := ih s1 g1 r0 hr hstep.1 h00
          simp only at h2 hstep ⊢
          rw [h2]
          rcases hp with rfl | rfl | rfl
          · exact hstep.2.2 (by simp)
          · exact hstep.2.2 (by simp)
          · simp at h0

/-- The cell `SetMove` writes holds `X` on the first participant's turn and
`O` otherwise. -/
theorem SetMove_writes (g : Game) (i j : Fin 3) :
    ∃ g1, SetMove g (i.val : Int) (j.val : Int) = some g1 ∧
      g1.board i j = (if g.playerOneTurn = true then X else O) := by
  refine ⟨_, SetMove_eq g _ _ i j ((idx3?_eq_some_iff _ _).2 rfl)
    ((idx3?_eq_some_iff _ _).2 rfl), ?_⟩
  simp only [Board.set, and_self, if_true, markOf]
  cases g.playerOneTurn <;> rfl

/-- C7.  In every state reached from `NewGame` through the turn loop, the mark
`SetMove` writes into a cell is X exactly when the active slot `currentPlayer`
is 0 and O exactly when it is 1; and as long as no move has been applied the
active slot is 0 and the mark written is X, so the first applied move of a
match is made by participant 0 with X. -/
theorem c7_mark_of_active_slot (s : Server) (conns : List Conn) (usernames : List String)
    (gameId : String) (inputs : List (Option (List Char))) (r : Run)
    (h : Start s (NewGame conns usernames gameId) inputs = some r) (i j : Fin 3) :
    ∃ g1, SetMove r.game (i.val : Int) (j.val : Int) = some g1 ∧
      (g1.board i j = X ↔ r.game.currentPlayer = 0) ∧
      (g1.board i j = O ↔ r.game.currentPlayer = 1) ∧
      (appliedMoves r.trace = 0 → r.game.currentPlayer = 0 ∧ g1.board i j = X) := by
  obtain ⟨g1, hset, hmark⟩ := SetMove_writes r.game i j
  have hinv := Start_turnInv inputs s _ r h (TurnInv_NewGame _ _ _)
  have hXO : X ≠ O := by decide
  have hfirst : appliedMoves r.trace = 0 → r.game.currentPlayer = 0 := fun h0 =>
    Start_no_move inputs s _ r h (TurnInv_NewGame _ _ _) h0
  refine ⟨g1, hset, ?_⟩
  rcases hinv with ⟨hc, ht⟩ | ⟨hc, hf⟩
  · rw [ht] at hmark
    simp only [if_true] at hmark
    rw [hmark, hc]
    exact ⟨⟨fun _ => rfl, fun _ => rfl⟩, ⟨fun hx => absurd hx hXO, fun hx => absurd hx (by decide)⟩,
      fun _ => ⟨rfl, rfl⟩⟩
  · rw [hf] at hmark
    simp only [Bool.false_eq_true, if_false] at hmark
    rw [hmark, hc]
    refine ⟨⟨fun hx => absurd hx.symm hXO, fun hx => absurd hx (by decide)⟩,
      ⟨fun _ => rfl, fun _ => rfl⟩, fun h0 => ?_⟩
    have := hfirst h0
    rw [hc] at this
    exact absurd this (by decide)

/-- Witness for `c7_mark_of_active_slot`: after one applied move slot 1 is
active and `SetMove` writes O. -/
theorem c7_mark_of_active_slot_witness :
    ∃ r g1, Start sampleServer (NewGame [⟨[], false⟩, ⟨[], false⟩] ["alice", "bob"] "match-1")
        [some "1 1".toList] = some r ∧
      SetMove r.game ((1 : Fin 3).val : Int) ((1 : Fin 3).val : Int) = some g1 ∧
      r.game.currentPlayer = 1 ∧ g1.board 1 1 = O :=
  match c7_mark_of_active_slot sampleServer [⟨[], false⟩, ⟨[], false⟩] ["alice", "bob"]
      "match-1" [some "1 1".toList] _ rfl 1 1 with
  | ⟨g1, hset, _, hO, _⟩ => ⟨_, g1, rfl, hset, rfl, hO.2 rfl⟩

/-! ## The move parser: `parseMove` -/

theorem parseDigits_eq (ds : List Char) (n : Nat) :
    parseDigits ds n =
      if ∀ c ∈ ds, c.isDigit = true then
        some (ds.foldl (fun n c => n * 10 + (c.toNat - 48)) n)
      else none := by
  induction ds generalizing n with
  | nil => simp [parseDigits]
  | cons c rest ih =>
    simp only [parseDigits, List.mem_cons, forall_eq_or_imp, List.foldl_cons]
    by_cases hc : c.isDigit = true
    · simp only [hc, if_true, true_and]
      exact ih _
    · simp [hc]

theorem splitSpaceAux_no_space (b : List Char) (hb : ' ' ∉ b) : splitSpaceAux b = (b, []) := by
  induction b with
  | nil => rfl
  | cons c rest ih =>
    simp only [List.mem_cons, not_or] at hb
    simp only [splitSpaceAux, ih hb.2]
    rw [if_neg (fun h => hb.1 h.symm)]

theorem splitSpaceAux_append (a rest : List Char) (ha : ' ' ∉ a) :
    splitSpaceAux (a ++ ' ' :: rest) =
      (a, (splitSpaceAux rest).1 :: (splitSpaceAux rest).2) := by
  induction a with
  | nil => simp [splitSpaceAux]
  | cons c a ih =>
    simp only [List.mem_cons, not_or] at ha
    have h := ih ha.2
    have hc : ¬ c = ' ' := fun h => ha.1 h.symm
    show splitSpaceAux (c :: (a ++ ' ' :: rest)) = _
    simp only [splitSpaceAux, h, if_neg hc]

/-- The first field has no space, and the line is the first field followed,
when there are more fields, by a space and the rest of the line. -/
theorem splitSpaceAux_spec (l : List Char) :
    ' ' ∉ (splitSpaceAux l).1 ∧
    (((splitSpaceAux l).2 = [] ∧ l = (splitSpaceAux l).1) ∨
     ∃ rest, l = (splitSpaceAux l).1 ++ ' ' :: rest ∧
       (splitSpaceAux l).2 = (splitSpaceAux rest).1 :: (splitSpaceAux rest).2) := by
  induction l with
  | nil => simp [splitSpaceAux]
  | cons c l ih =>
    by_cases hc : c = ' '
    · subst hc
      simp only [splitSpaceAux, if_true]
      exact ⟨by simp, Or.inr ⟨l, by simp, rfl⟩⟩
    · simp only [splitSpaceAux, if_neg hc]
      refine ⟨?_, ?_⟩
      · simp only [List.mem_cons, not_or]
        exact ⟨fun h => hc h.symm, ih.1⟩
      · rcases ih.2 with ⟨h2, hl⟩ | ⟨rest, hl, h2⟩
        · exact Or.inl ⟨h2, by rw [← hl]⟩
        · refine Or.inr ⟨rest, ?_, h2⟩
          rw [List.cons_append, ← hl]

/-- `strings.Split` yields exactly two fields when the line has exactly one
space. -/
theorem splitSpace_two_iff (line p0 p1 : List Char) :
    splitSpace line = [p0, p1] ↔ line = p0 ++ ' ' :: p1 ∧ ' ' ∉ p0 ∧ ' ' ∉ p1 := by
  unfold splitSpace
  constructor
  · intro h
    simp only [List.cons.injEq] at h
    obtain ⟨h1, h2⟩ := h
    have hs := splitSpaceAux_spec line
    rw [h1] at hs
    rcases hs.2 with ⟨hnil, _⟩ | ⟨rest, hl, hrest⟩
    · rw [hnil] at h2
      exact absurd h2 (by simp)
    · rw [h2] at hrest
      simp only [List.cons.injEq] at hrest
      have hs2 := splitSpaceAux_spec rest
      rw [← hrest.1, ← hrest.2] at hs2
      rcases hs2.2 with ⟨_, hr⟩ | ⟨rest2, _, hne⟩
      · rw [hr] at hl
        exact ⟨hl, hs.1, hs2.1⟩
      · exact absurd hne (by simp)
  · rintro ⟨hl, h0, h1⟩
    rw [hl, splitSpaceAux_append p0 p1 h0, splitSpaceAux_no_space p1 h1]

theorem IsDecimalInteger_nil (v : Int) : ¬ IsDecimalInteger [] v := by
  rintro ⟨ds, hne, _, h | h | h⟩
  · exact hne h.1.symm
  · exact absurd h.1 (by simp)
  · exact absurd h.1 (by simp)

theorem IsDecimalInteger_minus (t : List Char) (v : Int) :
    IsDecimalInteger ('-' :: t) v ↔
      t ≠ [] ∧ (∀ c ∈ t, c.isDigit = true) ∧ v = -(digitsValue t : Int) := by
  constructor
  · rintro ⟨ds, hne, hd, h | h | h⟩
    · have := hd '-' (by rw [← h.1]; simp)
      exact absurd this (by decide)
    · exact absurd (List.cons.inj h.1).1 (by decide)
    · obtain ⟨h1, h2⟩ := h
      obtain rfl := (List.cons.inj h1).2
      exact ⟨hne, hd, h2⟩
  · rintro ⟨hne, hd, hv⟩
    exact ⟨t, hne, hd, Or.inr (Or.inr ⟨rfl, hv⟩)⟩

theorem IsDecimalInteger_plus (t : List Char) (v : Int) :
    IsDecimalInteger ('+' :: t) v ↔
      t ≠ [] ∧ (∀ c ∈ t, c.isDigit = true) ∧ v = (digitsValue t : Int) := by
  constructor
  · rintro ⟨ds, hne, hd, h | h | h⟩
    · have := hd '+' (by rw [← h.1]; simp)
      exact absurd this (by decide)
    · obtain ⟨h1, h2⟩ := h
      obtain rfl := (List.cons.inj h1).2
      exact ⟨hne, hd, h2⟩
    · exact absurd (List.cons.inj h.1).1 (by decide)
  · rintro ⟨hne, hd, hv⟩
    exact ⟨t, hne, hd, Or.inr (Or.inl ⟨rfl, hv⟩)⟩

theorem IsDecimalInteger_plain (c : Char) (t : List Char) (v : Int) (hm : c ≠ '-')
    (hp : c ≠ '+') :
    IsDecimalInteger (c :: t) v ↔
      (∀ x ∈ c :: t, x.isDigit = true) ∧ v = (digitsValue (c :: t) : Int) := by
  constructor
  · rintro ⟨ds, hne, hd, h | h | h⟩
    · obtain ⟨h1, h2⟩ := h
      subst h1
      exact ⟨hd, h2⟩
    · exact absurd (List.cons.inj h.1).1 hp
    · exact absurd (List.cons.inj h.1).1 hm
  · rintro ⟨hd, hv⟩
    exact ⟨c :: t, by simp, hd, Or.inl ⟨rfl, hv⟩⟩

/-- The part of `Atoi` after the sign has been looked at. -/
theorem atoi_core (ds : List Char) (neg : Prop) [Decidable neg] (v : Int) :
    (if ds = [] then none
      else
        match parseDigits ds 0 with
        | none => none
        | some n =>
          let v : Int := if neg then -(n : Int) else (n : Int)
          if minInt ≤ v ∧ v ≤ maxInt then some v else none) = some v ↔
      ds ≠ [] ∧ (∀ c ∈ ds, c.isDigit = true) ∧
        v = (if neg then -(digitsValue ds : Int) else (digitsValue ds : Int)) ∧
        InIntRange v := by
  by_cases ht : ds = []
  · simp [ht]
  · rw [if_neg ht, parseDigits_eq]
    by_cases hd : ∀ c ∈ ds, c.isDigit = true
    · rw [if_pos hd]
      have key : ∀ w : Int,
          ((if minInt ≤ w ∧ w ≤ maxInt then some w else none) = some v) ↔
            (v = w ∧ InIntRange v) := by
        intro w
        unfold InIntRange
        by_cases hr : minInt ≤ w ∧ w ≤ maxInt
        · rw [if_pos hr]
          constructor
          · intro h
            have := Option.some.inj h
            subst this
            exact ⟨rfl, hr⟩
          · rintro ⟨rfl, _⟩
            rfl
        · rw [if_neg hr]
          constructor
          · intro h
            exact absurd h (by simp)
          · rintro ⟨rfl, h2⟩
            exact absurd h2 hr
      exact (key _).trans ⟨fun h => ⟨ht, hd, h⟩, fun h => h.2.2⟩
    · rw [if_neg hd]
      simp only
      constructor
      · intro h
        exact absurd h (by simp)
      · rintro ⟨_, h, _⟩
        exact absurd h hd

/-- The library call `Atoi` succeeds exactly on the decimal integers that fit
the type `int`, and returns their value. -/
theorem Atoi_eq_some_iff (s : List Char) (v : Int) :
    Atoi s = some v ↔ IsDecimalInteger s v ∧ InIntRange v := by
  unfold Atoi
  refine (atoi_core _ _ v).trans ?_
  cases s with
  | nil =>
    simp only [List.head?_nil, reduceCtorEq, or_self, if_false, ne_eq, not_true_eq_false,
      false_and, false_iff]
    exact fun h => IsDecimalInteger_nil v h.1
  | cons c t =>
    by_cases hm : c = '-'
    · subst hm
      rw [IsDecimalInteger_minus]
      simp only [List.head?_cons, true_or, if_true, List.tail_cons, and_assoc]
    · by_cases hp : c = '+'
      · subst hp
        rw [IsDecimalInteger_plus]
        simp only [List.head?_cons, Option.some.injEq, hm, or_true, if_true, if_false,
          List.tail_cons, and_assoc]
      · rw [IsDecimalInteger_plain c t v hm hp]
        simp only [List.head?_cons, Option.some.injEq, hm, hp, or_self, if_false, ne_eq,
          reduceCtorEq, not_false_eq_true, true_and, and_assoc]

/-- Inside the range of `int` the wrap-around is the identity. -/
theorem wrapInt_of_inRange (x : Int) (h : InIntRange x) : wrapInt x = x := by
  unfold InIntRange minInt maxInt intSize at h
  unfold wrapInt intSize
  norm_num at h ⊢
  omega

theorem wrapInt_pred (r : Int) (h : InIntRange r) (hlt : minInt < r) : wrapInt (r - 1) = r - 1 := by
  apply wrapInt_of_inRange
  unfold InIntRange at h ⊢
  constructor <;> omega

/-- A decimal integer contains no space. -/
theorem IsDecimalInteger_no_space (s : List Char) (v : Int) (h : IsDecimalInteger s v) :
    ' ' ∉ s := by
  obtain ⟨ds, _, hd, h⟩ := h
  have hds : ' ' ∉ ds := fun hm => absurd (hd ' ' hm) (by decide)
  rcases h with h | h | h
  · rw [h.1]
    exact hds
  · rw [h.1]
    simp only [List.mem_cons, not_or]
    exact ⟨by decide, hds⟩
  · rw [h.1]
    simp only [List.mem_cons, not_or]
    exact ⟨by decide, hds⟩

/-- What `parseMove` returns on two decimal integers in range separated by a
single space. -/
theorem parseMove_of_two_integers (line : List Char) (r c : Int)
    (h : IsTwoIntegers line r c) (hr : InIntRange r) (hc : InIntRange c) :
    parseMove line = (wrapInt (r - 1), wrapInt (c - 1), none) := by
  obtain ⟨a, b, hl, ha, hb⟩ := h
  have hsplit : splitSpace line = [a, b] :=
    (splitSpace_two_iff line a b).2
      ⟨hl, IsDecimalInteger_no_space a r ha, IsDecimalInteger_no_space b c hb⟩
  have hA : Atoi a = some r := (Atoi_eq_some_iff a r).2 ⟨ha, hr⟩
  have hB : Atoi b = some c := (Atoi_eq_some_iff b c).2 ⟨hb, hc⟩
  unfold parseMove
  rw [hsplit]
  simp only [hA, hB]

/-- The three shapes of the result of `parseMove`. -/
theorem parseMove_cases (line : List Char) :
    (∃ r c, IsTwoIntegers line r c ∧ InIntRange r ∧ InIntRange c ∧
      parseMove line = (wrapInt (r - 1), wrapInt (c - 1), none)) ∨
    parseMove line = (0, 0, some errTwoNumbers) ∨
    parseMove line = (0, 0, some errInvalidNumbers) := by
  unfold parseMove
  split
  · rename_i p0 p1 hsplit
    obtain ⟨hl, _, _⟩ := (splitSpace_two_iff line p0 p1).1 hsplit
    split
    · rename_i row col hA hB
      obtain ⟨ha, hr⟩ := (Atoi_eq_some_iff p0 row).1 hA
      obtain ⟨hb, hc⟩ := (Atoi_eq_some_iff p1 col).1 hB
      exact Or.inl ⟨row, col, ⟨p0, p1, hl, ha, hb⟩, hr, hc, rfl⟩
    · exact Or.inr (Or.inr rfl)
  · exact Or.inr (Or.inl rfl)

/-- C8, as the code has it.  `parseMove` succeeds exactly on the lines that
consist of two decimal integers (an optional sign, then one or more digits),
each within the range of the 64-bit type `int`, separated by a single space;
for such a line with values r and c it returns nil together with r-1 when r
is above the smallest `int` and c-1 when c is above the smallest `int`; on
every other line it returns one of its two errors. -/
theorem c8_parseMove (line : List Char) :
    ((parseMove line).2.2 = none ↔
      ∃ r c, IsTwoIntegers line r c ∧ InIntRange r ∧ InIntRange c) ∧
    (∀ r c, IsTwoIntegers line r c → InIntRange r → InIntRange c →
      ∃ row col, parseMove line = (row, col, none) ∧
        (minInt < r → row = r - 1) ∧ (minInt < c → col = c - 1)) ∧
    ((parseMove line).2.2 ≠ none →
      parseMove line = (0, 0, some "expected two numbers separated by space") ∨
      parseMove line = (0, 0, some "invalid numbers")) := by
  refine ⟨⟨fun h => ?_, fun h => ?_⟩, fun r c h hr hc => ?_, fun h => ?_⟩
  · rcases parseMove_cases line with ⟨r, c, h2, hr, hc, _⟩ | h2 | h2
    · exact ⟨r, c, h2, hr, hc⟩
    · rw [h2] at h
      exact absurd h (by simp)
    · rw [h2] at h
      exact absurd h (by simp)
  · obtain ⟨r, c, h2, hr, hc⟩ := h
    rw [parseMove_of_two_integers line r c h2 hr hc]
  · exact ⟨_, _, parseMove_of_two_integers line r c h hr hc, fun hlt => wrapInt_pred r hr hlt,
      fun hlt => wrapInt_pred c hc hlt⟩
  · rcases parseMove_cases line with ⟨r, c, _, _, _, h2⟩ | h2 | h2
    · rw [h2] at h
      exact absurd rfl h
    · exact Or.inl h2
    · exact Or.inr h2

/-- The line "2 3" consists of the decimal integers 2 and 3 separated by a
single space. -/
theorem isTwoIntegers_2_3 : IsTwoIntegers "2 3".toList 2 3 :=
  ⟨"2".toList, "3".toList, by decide,
    ⟨"2".toList, by decide, by decide, Or.inl ⟨rfl, by decide⟩⟩,
    ⟨"3".toList, by decide, by decide, Or.inl ⟨rfl, by decide⟩⟩⟩

/-- Witness for `c8_parseMove`: the line "2 3" yields row 1 and column 2, and
the lines "a b", "1", "1 2 3", "1  2" and the empty line yield an error. -/
theorem c8_parseMove_witness :
    (∃ row col, parseMove "2 3".toList = (row, col, none) ∧ row = 2 - 1 ∧ col = 3 - 1) ∧
    parseMove "a b".toList = (0, 0, some "invalid numbers") ∧
    parseMove "1".toList = (0, 0, some "expected two numbers separated by space") ∧
    parseMove "1 2 3".toList = (0, 0, some "expected two numbers separated by space") ∧
    parseMove "1  2".toList = (0, 0, some "expected two numbers separated by space") ∧
    parseMove "".toList = (0, 0, some "expected two numbers separated by space") :=
  ⟨match (c8_parseMove "2 3".toList).2.1 2 3 isTwoIntegers_2_3 (by decide) (by decide) with
    | ⟨row, col, h, hr, hc⟩ => ⟨row, col, h, hr (by decide), hc (by decide)⟩,
    by decide, by decide, by decide, by decide, by decide⟩

/-- C8 as stated fails.  The line "9223372036854775808 1" consists of two
decimal integers separated by a single space, yet `parseMove` returns an
error, the first number being outside the range of `int`; and on the line
"-9223372036854775808 1" the row returned is 9223372036854775807, which is not
r-1. -/
theorem c8_counterexample :
    IsTwoIntegers "9223372036854775808 1".toList 9223372036854775808 1 ∧
    parseMove "9223372036854775808 1".toList = (0, 0, some "invalid numbers") ∧
    IsTwoIntegers "-9223372036854775808 1".toList (-9223372036854775808) 1 ∧
    parseMove "-9223372036854775808 1".toList = (9223372036854775807, 0, none) ∧
    (9223372036854775807 : Int) ≠ -9223372036854775808 - 1 :=
  ⟨⟨"9223372036854775808".toList, "1".toList, by decide,
      ⟨"9223372036854775808".toList, by decide, by decide, Or.inl ⟨rfl, by decide⟩⟩,
      ⟨"1".toList, by decide, by decide, Or.inl ⟨rfl, by decide⟩⟩⟩,
    by decide,
    ⟨"-9223372036854775808".toList, "1".toList, by decide,
      ⟨"9223372036854775808".toList, by decide, by decide, Or.inr (Or.inr ⟨rfl, by decide⟩)⟩,
      ⟨"1".toList, by decide, by decide, Or.inl ⟨rfl, by decide⟩⟩⟩,
    by decide, by decide⟩

/-! ## The result history -/

theorem SetGameHistory_eq (s : Server) (game : Game) (winner : String) (finished : Bool)
    (p1 p2 : String) (h0 : game.Usernames[0]? = some p1) (h1 : game.Usernames[1]? = some p2) :
    SetGameHistory s game winner finished =
      some { s with history := s.history ++ [summaryOf game p1 p2 winner finished] } := by
  unfold SetGameHistory
  rw [h0, h1]
  rfl

/-- C10.  For every server and every game (whose first two usernames are p1
and p2), `SetGameHistory` yields a history of length len(h)+1 whose first
len(h) entries are exactly the entries of the old history h in the same order
and whose last entry is the new summary; no existing entry is changed or
removed, and the server's games map is untouched. -/
theorem c10_setGameHistory_appends (s : Server) (game : Game) (winner : String)
    (finished : Bool) (p1 p2 : String)
    (h0 : game.Usernames[0]? = some p1) (h1 : game.Usernames[1]? = some p2) :
    ∃ s1, SetGameHistory s game winner finished = some s1 ∧
      s1.history.length = s.history.length + 1 ∧
      s1.history.take s.history.length = s.history ∧
      (∀ k, k < s.history.length → s1.history[k]? = s.history[k]?) ∧
      s1.history.getLast? =
        some { GameID := game.gameId, Player1 := p1, Player2 := p2, Winner := winner,
               Finished := finished, Board := game.board } ∧
      s1.games = s.games := by
  refine ⟨_, SetGameHistory_eq s game winner finished p1 p2 h0 h1, ?_, ?_, ?_, ?_, rfl⟩
  · simp
  · simp
  · intro k hk
    exact List.getElem?_append_left hk
  · simp [summaryOf]

/-- Witness for `c10_setGameHistory_appends`: a second summary is appended
after the one on record. -/
theorem c10_setGameHistory_appends_witness :
    ∃ s1, SetGameHistory sampleServerOne (gameOfBoard boardTwoLines) "X" true = some s1 ∧
      s1.history.length = 1 + 1 ∧
      s1.history.take 1 = sampleServerOne.history ∧
      (∀ k, k < 1 → s1.history[k]? = sampleServerOne.history[k]?) ∧
      s1.history.getLast? =
        some { GameID := "g", Player1 := "alice", Player2 := "bob", Winner := "X",
               Finished := true, Board := boardTwoLines } ∧
      s1.games = [("match-0", 0), ("match-1", 1)] :=
  c10_setGameHistory_appends sampleServerOne (gameOfBoard boardTwoLines) "X" true "alice" "bob"
    rfl rfl

/-- Only the path `finished` touches the server. -/
theorem iteration_server (s s1 : Server) (g g1 : Game) (input : Option (List Char)) (p : Path)
    (h : iteration s g input = some (p, s1, g1)) (hp : p ≠ Path.finished) : s1 = s := by
  rcases (iteration_spec s g input _ h).2.2.2 with h | h | h | h | h
  · exact h.2.2.1
  · exact h.2.2.1
  · exact h.2.2.1
  · exact h.2.2.2.1
  · exact absurd h.1 hp

/-- On the path `finished` the outcome `CheckWinner` reports on the new board
is recorded with `SetGameHistory`. -/
theorem iteration_finished (s s1 : Server) (g g1 : Game) (input : Option (List Char))
    (h : iteration s g input = some (Path.finished, s1, g1)) :
    (CheckWinner g1).2 = true ∧ SetGameHistory s g1 (CheckWinner g1).1 true = some s1 := by
  rcases (iteration_spec s g input _ h).2.2.2 with h | h | h | h | h
  · exact absurd h.1 (by simp)
  · exact absurd h.1 (by simp)
  · exact absurd h.1 (by simp)
  · exact absurd h.1 (by simp)
  · exact ⟨h.2.2.1, h.2.2.2.1⟩

/-- What a run does to the server: nothing as long as no pass takes the path
`finished`; that path is the last of the run, stops it, and appends the
summary of the final board. -/
theorem Start_history (inputs : List (Option (List Char))) (s : Server) (g : Game) (r : Run)
    (u1 u2 : String) (h : Start s g inputs = some r)
    (hu0 : g.Usernames[0]? = some u1) (hu1 : g.Usernames[1]? = some u2) :
    r.game.gameId = g.gameId ∧ r.game.Usernames = g.Usernames ∧
    ((r.status = Status.stopped ∧ r.trace.getLast? = some Path.finished ∧
        (CheckWinner r.game).2 = true ∧
        r.server = { s with history := s.history ++
          [summaryOf r.game u1 u2 (CheckWinner r.game).1 true] }) ∨
      (Path.finished ∉ r.trace ∧ r.server = s)) ∧
    Path.finished ∉ r.trace.dropLast := by
  induction inputs generalizing s g r with
  | nil =>
    simp only [Start, Option.some.injEq] at h
    subst h
    exact ⟨rfl, rfl, Or.inr ⟨by simp, rfl⟩, by simp⟩
  | cons input rest ih =>
    cases hit : iteration s g input with
    | none =>
      rw [Start_cons_none _ _ _ _ hit] at h
      exact absurd h (by simp)
    | some out =>
      obtain ⟨p, s1, g1⟩ := out
      have hframe := iteration_spec s g input _ hit
      have hid : g1.gameId = g.gameId := hframe.1
      have hus : g1.Usernames = g.Usernames := hframe.2.1
      rcases Path.cases5 p with rfl | rfl | hp
      · rw [Start_cons_disconnected _ _ _ _ _ _ hit] at h
        cases h
        have hs := iteration_server _ _ _ _ _ _ hit (by simp)
        exact ⟨hid, hus, Or.inr ⟨by simp, hs⟩, by simp⟩
      · rw [Start_cons_finished _ _ _ _ _ _ hit] at h
        cases h
        obtain ⟨hfin, hset⟩ := iteration_finished _ _ _ _ _ hit
        rw [SetGameHistory_eq s g1 _ true u1 u2 (by rw [hus]; exact hu0)
          (by rw [hus]; exact hu1)] at hset
        refine ⟨hid, hus, Or.inl ⟨rfl, rfl, hfin, ?_⟩, by simp⟩
        exact (Option.some.inj hset).symm
      · have hs : s1 = s := iteration_server _ _ _ _ _ _ hit (by
          rcases hp with rfl | rfl | rfl <;> simp)
        have hpf : Path.finished ≠ p := by
          rcases hp with rfl | rfl | rfl <;> simp
        subst hs
        rw [Start_cons_continue _ _ _ _ _ _ _ hit hp] at h
        cases hr : Start s1 g1 rest with
        | none =>
          rw [hr] at h
          exact absurd h (by simp)
        | some r0 =>
          rw [hr] at h
          simp only [Option.map_some', Option.some.injEq] at h
          subst h
          obtain ⟨h1, h2, h3, h4⟩ := ih s1 g1 r0 hr (by rw [hus]; exact hu0)
            (by rw [hus]; exact hu1)
          refine ⟨h1.trans hid, h2.trans hus, ?_, ?_⟩
          · rcases h3 with ⟨ha, hb, hc, hd⟩ | ⟨ha, hb⟩
            · refine Or.inl ⟨ha, ?_, hc, hd⟩
              simp only
              cases ht : r0.trace with
              | nil =>
                rw [ht] at hb
                exact absurd hb (by simp)
              | cons q t =>
                rw [ht] at hb
                rw [List.getLast?_cons_cons]
                exact hb
            · refine Or.inr ⟨?_, hb⟩
              simp only [List.mem_cons, not_or]
              exact ⟨hpf, ha⟩
          · simp only
            cases ht : r0.trace with
            | nil => simp
            | cons q t =>
              rw [ht] at h4
              rw [List.dropLast_cons₂]
              simp only [List.mem_cons, not_or]
              exact ⟨hpf, h4⟩

/-- The answer of `CheckWinner` depends on the board only. -/
theorem CheckWinner_congr (g g1 : Game) (hb : g1.board = g.board) :
    CheckWinner g1 = CheckWinner g := by
  unfold CheckWinner
  rw [hb]

/-- A pass on a line that `parseMove` and `ValidateMove` accept: the move is
written with `SetMove`, and the pass takes the path `finished`, recording the
outcome, exactly when `CheckWinner` reports finished on the new board, and the
path `switched` otherwise. -/
theorem iteration_accepted (s : Server) (g g3 g4 : Game) (line : List Char) (row col : Int)
    (u1 u2 : String) (hconn : (connIndex? g.conns g.currentPlayer).isSome)
    (hu0 : g.Usernames[0]? = some u1) (hu1 : g.Usernames[1]? = some u2)
    (hp : parseMove line = (row, col, none))
    (hv : ValidateMove g row col = some (g3, none))
    (hs : SetMove g3 row col = some g4) :
    ∃ g1, g1.board = g4.board ∧
      (((CheckWinner g4).2 = true ∧
          iteration s g (some line) =
            some (Path.finished,
              { s with history := s.history ++
                [summaryOf g4 u1 u2 (CheckWinner g4).1 true] }, g1)) ∨
       ((CheckWinner g4).2 = false ∧
          iteration s g (some line) = some (Path.switched, s, g1))) := by
  have hg3 := ValidateMove_game _ _ _ _ _ hv
  subst hg3
  obtain ⟨i, j, hi, hj, _⟩ := ValidateMove_nil _ _ _ _ hv
  rw [SetMove_eq _ _ _ i j hi hj] at hs
  have hg4 := (Option.some.inj hs).symm
  have hlen : 2 ≤ g3.Usernames.length := by
    by_contra hlt
    have : g3.Usernames[1]? = none := List.getElem?_eq_none (by omega)
    rw [this] at hu1
    exact absurd hu1 (by simp)
  obtain ⟨out, hit⟩ := Option.isSome_iff_exists.1 (iteration_isSome s g3 (some line) hconn hlen)
  obtain ⟨p, s1, g1⟩ := out
  obtain ⟨hid, hus, _, hcase⟩ := iteration_spec s g3 (some line) _ hit
  simp only at hid hus hcase
  have hboard : ∀ (line1 : List Char) (row1 col1 : Int) (i1 j1 : Fin 3),
      some line = some line1 → parseMove line1 = (row1, col1, none) →
      idx3? row1 = some i1 → idx3? col1 = some j1 →
      g1.board = g3.board.set i1 j1 (markOf g3) → g1.board = g4.board := by
    intro line1 row1 col1 i1 j1 hl hp1 hi1 hj1 hb
    have hl1 := Option.some.inj hl
    subst hl1
    rw [hp] at hp1
    have hr := (Prod.mk.inj hp1).1
    have hc := (Prod.mk.inj (Prod.mk.inj hp1).2).1
    subst hr
    subst hc
    rw [hi] at hi1
    rw [hj] at hj1
    have e1 := Option.some.inj hi1
    have e2 := Option.some.inj hj1
    subst e1
    subst e2
    rw [hb, hg4]
  rcases hcase with h | h | h | h | h
  · exact absurd h.2.1 (by simp)
  · obtain ⟨_, ⟨line1, hl, hne⟩, _⟩ := h
    have hl1 := Option.some.inj hl
    subst hl1
    rw [hp] at hne
    exact absurd rfl hne
  · obtain ⟨_, ⟨line1, row1, col1, err, hl, hp1, hv1⟩, _⟩ := h
    have hl1 := Option.some.inj hl
    subst hl1
    rw [hp] at hp1
    have hr := (Prod.mk.inj hp1).1
    have hc := (Prod.mk.inj (Prod.mk.inj hp1).2).1
    subst hr
    subst hc
    rw [hv] at hv1
    exact absurd (Prod.mk.inj (Option.some.inj hv1)).2 (by simp)
  · obtain ⟨hpath, ⟨line1, row1, col1, i1, j1, hl, hp1, _, hi1, hj1, _, hb⟩, hfin, hsrv, _⟩ := h
    have hbd := hboard line1 row1 col1 i1 j1 hl hp1 hi1 hj1 hb
    refine ⟨g1, hbd, Or.inr ⟨?_, ?_⟩⟩
    · rw [CheckWinner_congr g1 g4 hbd.symm]
      exact hfin
    · rw [hit, hpath, hsrv]
  · obtain ⟨hpath, ⟨line1, row1, col1, i1, j1, hl, hp1, _, hi1, hj1, _, hb⟩, hfin, hset, _⟩ := h
    have hbd := hboard line1 row1 col1 i1 j1 hl hp1 hi1 hj1 hb
    have hcw := CheckWinner_congr g1 g4 hbd.symm
    refine ⟨g1, hbd, Or.inl ⟨?_, ?_⟩⟩
    · rw [hcw]
      exact hfin
    · rw [SetGameHistory_eq s g1 _ true u1 u2 (by rw [hus]; exact hu0)
        (by rw [hus]; exact hu1)] at hset
      have hsum : summaryOf g1 u1 u2 (CheckWinner g1).1 true =
          summaryOf g4 u1 u2 (CheckWinner g4).1 true := by
        have hid4 : g4.gameId = g3.gameId := by rw [hg4]
        simp only [summaryOf, hid, hid4, hbd, hcw]
      rw [hit, hpath, ← Option.some.inj hset, hsum]

/-- `SetMove` changes the board only. -/
theorem SetMove_gameId (g g4 : Game) (row col : Int) (h : SetMove g row col = some g4) :
    g4.gameId = g.gameId := by
  cases hi : idx3? row with
  | none => simp [SetMove, hi] at h
  | some i =>
    cases hj : idx3? col with
    | none => simp [SetMove, hi, hj] at h
    | some j =>
      rw [SetMove_eq g row col i j hi hj] at h
      rw [← Option.some.inj h]

/-- C9.  In every run of a match from `NewGame` (with usernames u1 and u2):
a pass that applies a move after which `CheckWinner` reports finished is the
last pass of the run and the only such pass, the match has then stopped, and
the server history has grown by exactly one entry, whose Winner is the outcome
`CheckWinner` reports on the final board, whose Finished is true, whose Board
is the final board and whose GameID, Player1, Player2 are the game's id and two
usernames; a run without such a pass leaves the history as it was.  On the
lines "1 1", "2 1", "1 2", "2 2", "1 3" the match is still awaiting a move
after four lines and has stopped after the fifth, with the single entry having
Winner "X" and Finished true.  And whenever the loop awaits a move and the
line read is accepted by `parseMove` and `ValidateMove` and written by
`SetMove`: if `CheckWinner` reports finished on the new board (a win or a
draw), the run extended by that line has stopped, its last pass is the
recording one, and its history is the old one followed by the single entry with
the reported winner and the new board; if `CheckWinner` reports not finished,
the run goes on awaiting with the history as it was. -/
theorem c9_result_recorded_once (s : Server) (conns : List Conn) (usernames : List String)
    (gameId : String) (inputs : List (Option (List Char))) (r : Run) (u1 u2 : String)
    (h : Start s (NewGame conns usernames gameId) inputs = some r)
    (hu0 : usernames[0]? = some u1) (hu1 : usernames[1]? = some u2) :
    (Path.finished ∈ r.trace →
      r.status = Status.stopped ∧ r.trace.getLast? = some Path.finished ∧
      Path.finished ∉ r.trace.dropLast ∧ (CheckWinner r.game).2 = true ∧
      r.server.history = s.history ++
        [{ GameID := gameId, Player1 := u1, Player2 := u2, Winner := (CheckWinner r.game).1,
           Finished := true, Board := r.game.board }] ∧
      r.server.games = s.games) ∧
    (Path.finished ∉ r.trace → r.server.history = s.history) ∧
    (∃ r4 r5, Start sampleServer sampleGame (scenarioA.take 4) = some r4 ∧
      r4.status = Status.awaiting ∧
      Start sampleServer sampleGame scenarioA = some r5 ∧
      r5.status = Status.stopped ∧
      r5.trace = [Path.switched, Path.switched, Path.switched, Path.switched, Path.finished] ∧
      r5.server.history.map
          (fun e => (e.GameID, e.Player1, e.Player2, e.Winner, e.Finished, e.Board.rows)) =
        [("match-1", "alice", "bob", "X", true,
          [["X", "X", "X"], ["O", "O", ""], ["", "", ""]])]) ∧
    (r.status = Status.awaiting →
      (connIndex? r.game.conns r.game.currentPlayer).isSome →
      ∀ (line : List Char) (row col : Int) (g3 g4 : Game),
        parseMove line = (row, col, none) →
        ValidateMove r.game row col = some (g3, none) →
        SetMove g3 row col = some g4 →
        ((CheckWinner g4).2 = true →
          ∃ r1, Start s (NewGame conns usernames gameId) (inputs ++ [some line]) = some r1 ∧
            r1.status = Status.stopped ∧ r1.trace = r.trace ++ [Path.finished] ∧
            r1.game.board = g4.board ∧
            r1.server.history = s.history ++
              [{ GameID := gameId, Player1 := u1, Player2 := u2, Winner := (CheckWinner g4).1,
                 Finished := true, Board := g4.board }] ∧
            r1.server.games = s.games) ∧
        ((CheckWinner g4).2 = false →
          ∃ r1, Start s (NewGame conns usernames gameId) (inputs ++ [some line]) = some r1 ∧
            r1.status = Status.awaiting ∧ r1.trace = r.trace ++ [Path.switched] ∧
            r1.game.board = g4.board ∧ r1.server = s)) := by
  obtain ⟨hid, hus, hcases, hdrop⟩ := Start_history inputs s _ r u1 u2 h hu0 hu1
  refine ⟨fun hmem => ?_, fun hnot => ?_, ⟨_, _, rfl, rfl, rfl, rfl, rfl, rfl⟩, ?_⟩
  · rcases hcases with ⟨hst, hlast, hfin, hsrv⟩ | ⟨hnot, _⟩
    · refine ⟨hst, hlast, hdrop, hfin, ?_, ?_⟩
      · rw [hsrv]
        simp only [summaryOf, hid]
        rfl
      · rw [hsrv]
    · exact absurd hmem hnot
  · rcases hcases with ⟨_, hlast, _, _⟩ | ⟨_, hsrv⟩
    · exact absurd (List.mem_of_mem_getLast? hlast) hnot
    · rw [hsrv]
  · intro hs hconn line row col g3 g4 hp hv hset
    have hsrv : r.server = s := by
      rcases hcases with ⟨hst, _⟩ | ⟨_, hsrv⟩
      · rw [hs] at hst
        exact absurd hst (by simp)
      · exact hsrv
    have hg3 := ValidateMove_game _ _ _ _ _ hv
    have hid4 : g4.gameId = gameId := by
      rw [SetMove_gameId _ _ _ _ hset, hg3]
      exact hid
    obtain ⟨g1, hbd, hcase⟩ := iteration_accepted r.server r.game g3 g4 line row col u1 u2 hconn
      (by rw [hus]; exact hu0) (by rw [hus]; exact hu1) hp hv hset
    have happ := Start_append inputs [some line] s _ r h
    rw [if_pos hs] at happ
    rcases hcase with ⟨hfin, hit⟩ | ⟨hnf, hit⟩
    · refine ⟨fun _ => ?_, fun hf => ?_⟩
      · rw [Start_cons_finished _ _ _ _ _ _ hit] at happ
        refine ⟨_, happ, rfl, rfl, ?_, ?_, ?_⟩
        · exact hbd
        · simp only [hsrv, summaryOf, hid4]
        · simp only [hsrv]
      · rw [hfin] at hf
        exact absurd hf (by simp)
    · refine ⟨fun ht => ?_, fun _ => ?_⟩
      · rw [hnf] at ht
        exact absurd ht (by simp)
      · rw [Start_cons_continue _ _ _ _ _ _ _ hit (Or.inr (Or.inr rfl))] at happ
        exact ⟨_, happ, rfl, rfl, hbd, hsrv⟩

/-- Witness for `c9_result_recorded_once`: scenario A run on a fresh server,
and a match that ends in a draw with its ninth move. -/
theorem c9_result_recorded_once_witness :
    (∃ r, Start sampleServer (NewGame [⟨[], false⟩, ⟨[], false⟩] ["alice", "bob"] "match-1")
        scenarioA = some r ∧
      r.status = Status.stopped ∧ (CheckWinner r.game) = ("X", true) ∧
      r.server.history = sampleServer.history ++
        [{ GameID := "match-1", Player1 := "alice", Player2 := "bob",
           Winner := (CheckWinner r.game).1, Finished := true, Board := r.game.board }]) ∧
    (∃ r8 g4,
      Start sampleServer (NewGame [⟨[], false⟩, ⟨[], false⟩] ["alice", "bob"] "match-1")
        (drawMoves.take 8) = some r8 ∧
      r8.status = Status.awaiting ∧
      SetMove r8.game 2 2 = some g4 ∧ CheckWinner g4 = ("Draw", true) ∧
      ∃ r9,
        Start sampleServer (NewGame [⟨[], false⟩, ⟨[], false⟩] ["alice", "bob"] "match-1")
          (drawMoves.take 8 ++ [some "3 3".toList]) = some r9 ∧
        r9.status = Status.stopped ∧ r9.trace = r8.trace ++ [Path.finished] ∧
        r9.game.board = g4.board ∧
        r9.server.history = sampleServer.history ++
          [{ GameID := "match-1", Player1 := "alice", Player2 := "bob",
             Winner := (CheckWinner g4).1, Finished := true, Board := g4.board }] ∧
        r9.server.games = sampleServer.games) :=
  ⟨⟨_, rfl, rfl, by decide,
    ((c9_result_recorded_once sampleServer [⟨[], false⟩, ⟨[], false⟩] ["alice", "bob"]
      "match-1" scenarioA _ "alice" "bob" rfl rfl rfl).1 (by decide)).2.2.2.2.1⟩,
   ⟨_, _, rfl, rfl, rfl, by decide,
    ((c9_result_recorded_once sampleServer [⟨[], false⟩, ⟨[], false⟩] ["alice", "bob"]
      "match-1" (drawMoves.take 8) _ "alice" "bob" rfl rfl rfl).2.2.2 rfl (by decide)
      "3 3".toList 2 2 _ _ (by decide) rfl rfl).1 (by decide)⟩⟩

/-! ## Disconnects and the rendered board -/

theorem closed_write (c : Conn) (text : String) : (c.write text).closed = c.closed := by
  unfold Conn.write
  split <;> rfl

/-- A write to an open connection is the last text it holds. -/
theorem getLast?_write (c : Conn) (text : String) (h : c.closed = false) :
    (c.write text).sent.getLast? = some text := by
  unfold Conn.write
  rw [if_neg (by simp [h])]
  simp

theorem getElem?_sendAll (conns : List Conn) (text : String) (k : Nat) :
    (sendAll conns text)[k]? = (conns[k]?).map (fun c => c.write text) := by
  simp [sendAll]

/-- A write to one connection of the slice keeps every `closed` flag. -/
theorem getElem?_writeAt_closed (conns : List Conn) (n : Nat) (text : String) (k : Nat) (c : Conn)
    (h : conns[k]? = some c) :
    ∃ c1, (writeAt conns n text)[k]? = some c1 ∧ c1.closed = c.closed := by
  induction conns generalizing n k with
  | nil => simp at h
  | cons d rest ih =>
    cases n with
    | zero =>
      cases k with
      | zero =>
        simp only [List.getElem?_cons_zero, Option.some.injEq] at h
        subst h
        exact ⟨d.write text, by simp [writeAt], closed_write _ _⟩
      | succ k => exact ⟨c, by simpa [writeAt] using h, rfl⟩
    | succ n =>
      cases k with
      | zero =>
        simp only [List.getElem?_cons_zero, Option.some.injEq] at h
        subst h
        exact ⟨_, by simp [writeAt], rfl⟩
      | succ k =>
        simp only [List.getElem?_cons_succ] at h
        obtain ⟨c1, h1, h2⟩ := ih n k h
        exact ⟨c1, by simpa [writeAt] using h1, h2⟩

/-- C11.  For every game state whose active slot indexes a connection, when
the read of the active participant's line fails, the pass ends the match (the
run has stopped), the server and so its history are as before, the board is
unchanged, and every open connection of the game has received the notice
"Player disconnected! game over!" as its last text. -/
theorem c11_disconnect_stops_match (s : Server) (g : Game)
    (hconn : (connIndex? g.conns g.currentPlayer).isSome) :
    ∃ g1, iteration s g none = some (Path.disconnected, s, g1) ∧
      Start s g [none] =
        some { trace := [Path.disconnected], status := Status.stopped, server := s,
               game := g1 } ∧
      g1.board = g.board ∧ g1.conns.length = g.conns.length ∧
      ∀ (k : Nat) (c : Conn), g.conns[k]? = some c → c.closed = false →
        ∃ c1, g1.conns[k]? = some c1 ∧
          c1.sent.getLast? = some "Player disconnected! game over!\n" := by
  obtain ⟨n, hn⟩ := Option.isSome_iff_exists.1 hconn
  have hit : iteration s g none = some (Path.disconnected, s,
      { PrintBoard g with
        conns := sendAll (writeAt (PrintBoard g).conns n promptText) disconnectText }) := by
    unfold iteration
    simp only [connIndex?_PrintBoard, hn]
  refine ⟨_, hit, Start_cons_disconnected _ _ _ _ _ _ hit, rfl, ?_, ?_⟩
  · simp [length_sendAll, length_writeAt, PrintBoard]
  · intro k c hk hc
    have h1 : (PrintBoard g).conns[k]? = some (c.write (boardText g.board)) := by
      simp [PrintBoard, getElem?_sendAll, hk]
    obtain ⟨c2, h2, h2c⟩ := getElem?_writeAt_closed _ n promptText k _ h1
    refine ⟨c2.write disconnectText, ?_, ?_⟩
    · simp only [getElem?_sendAll, h2, Option.map_some']
    · exact getLast?_write _ _ (by rw [h2c, closed_write, hc])

/-- Witness for `c11_disconnect_stops_match`: the first read of a fresh match
fails. -/
theorem c11_disconnect_stops_match_witness :
    ∃ g1, iteration sampleServer sampleGame none = some (Path.disconnected, sampleServer, g1) ∧
      g1.board = sampleGame.board ∧
      (∃ c1, g1.conns[0]? = some c1 ∧
        c1.sent.getLast? = some "Player disconnected! game over!\n") ∧
      (∃ c1, g1.conns[1]? = some c1 ∧
        c1.sent.getLast? = some "Player disconnected! game over!\n") :=
  match c11_disconnect_stops_match sampleServer sampleGame (by decide) with
  | ⟨g1, hit, _, hb, _, hall⟩ =>
    ⟨g1, hit, hb, hall 0 ⟨[], false⟩ rfl rfl, hall 1 ⟨[], false⟩ rfl rfl⟩

/-- C12, evaluated.  When the first read of a match fails, `Game.Start` has
returned with both connections still open, whereas after the terminal outcome
of scenario A it has returned with both connections closed. -/
theorem c12_disconnect_leaves_connections_open :
    (∃ r, Start sampleServer sampleGame [none] = some r ∧ r.status = Status.stopped ∧
      r.trace = [Path.disconnected] ∧
      r.game.conns.map (fun c => c.closed) = [false, false]) ∧
    (∃ r, Start sampleServer sampleGame scenarioA = some r ∧ r.status = Status.stopped ∧
      r.game.conns.map (fun c => c.closed) = [true, true]) :=
  ⟨⟨_, rfl, rfl, rfl, rfl⟩, ⟨_, rfl, rfl, rfl⟩⟩

/-- C14.  The text `PrintBoard` builds is "\n    1 2 3\n", then "  --------\n",
then for each row i = 1, 2, 3 the text "<i> | " followed by the row's three
cells, each shown as "_ " when empty and as the mark plus one space otherwise,
followed by "\n", and finally one more "\n"; `PrintBoard` writes this one text
to every connection and changes nothing else, so every open connection
receives the identical text. -/
theorem c14_printBoard_text (g : Game) :
    boardText g.board =
      "\n    1 2 3\n" ++ "  --------\n" ++
        ("1 | " ++ cellText (g.board 0 0) ++ cellText (g.board 0 1) ++ cellText (g.board 0 2)
          ++ "\n") ++
        ("2 | " ++ cellText (g.board 1 0) ++ cellText (g.board 1 1) ++ cellText (g.board 1 2)
          ++ "\n") ++
        ("3 | " ++ cellText (g.board 2 0) ++ cellText (g.board 2 1) ++ cellText (g.board 2 2)
          ++ "\n") ++ "\n" ∧
    PrintBoard g = { g with conns := g.conns.map (fun c => c.write (boardText g.board)) } ∧
    (PrintBoard g).conns.length = g.conns.length ∧
    ∀ (k : Nat) (c : Conn), g.conns[k]? = some c → c.closed = false →
      ∃ c1, (PrintBoard g).conns[k]? = some c1 ∧ c1.sent = c.sent ++ [boardText g.board] := by
  refine ⟨?_, rfl, by simp [PrintBoard, length_sendAll], ?_⟩
  · have h1 : toString ((0 : Fin 3).val + 1) = "1" := by decide
    have h2 : toString ((1 : Fin 3).val + 1) = "2" := by decide
    have h3 : toString ((2 : Fin 3).val + 1) = "3" := by decide
    simp only [boardText, renderRows, renderCells, cellText, h1, h2, h3, String.append_assoc,
      String.append_empty]
    rfl
  · intro k c hk hc
    refine ⟨c.write (boardText g.board), by simp [PrintBoard, getElem?_sendAll, hk], ?_⟩
    unfold Conn.write
    rw [if_neg (by simp [hc])]

/-! ## Invariants of the runs: completed lines and the winner -/

/-- Witness for `c14_printBoard_text`: the rendering of the board with X on
the first row and O on the second. -/
theorem c14_printBoard_text_witness :
    boardText (gameOfBoard boardTwoLines).board =
      "\n    1 2 3\n  --------\n1 | X X X \n2 | O O O \n3 | _ _ _ \n\n" :=
  (c14_printBoard_text (gameOfBoard boardTwoLines)).1.trans (by decide)

theorem hasWonLine_iff_lineWon (b : Board) : hasWonLine b ↔ ∃ l ∈ allLines, lineWon b l :=
  Iff.rfl

/-- The mark `SetMove` writes is never the empty string. -/
theorem markOf_ne_empty (g : Game) : markOf g ≠ "" := by
  unfold markOf
  cases g.playerOneTurn <;> decide

theorem markOf_eq (g : Game) : markOf g = X ∨ markOf g = O := by
  unfold markOf
  cases g.playerOneTurn
  · exact Or.inr rfl
  · exact Or.inl rfl

/-- When `CheckWinner` reports not finished, no line is completed and some
cell is empty. -/
theorem CheckWinner_not_finished (g : Game) (h : (CheckWinner g).2 = false) :
    ¬ hasWonLine g.board ∧ ¬ boardFull g.board := by
  rcases CheckWinner_cases g with ⟨w, _, _, hc⟩ | ⟨hn, hf, _⟩ | ⟨_, _, hc⟩
  · rw [hc] at h
    exact absurd h (by simp)
  · exact ⟨hn, hf⟩
  · rw [hc] at h
    exact absurd h (by simp)

/-- After a mark is written into an empty cell of a board without a completed
line, every completed line holds that mark. -/
theorem lineWon_after_set (b : Board) (i j : Fin 3) (m : String) (hn : ¬ hasWonLine b)
    (l : (Fin 3 × Fin 3) × (Fin 3 × Fin 3) × (Fin 3 × Fin 3)) (hl : l ∈ allLines)
    (hw : lineWon (b.set i j m) l) : (b.set i j m) l.1.1 l.1.2 = m := by
  obtain ⟨hne, h1, h2, h3⟩ := hw
  by_contra hm
  apply hn
  have key : ∀ p q : Fin 3, (b.set i j m) p q = (b.set i j m) l.1.1 l.1.2 →
      b p q = (b.set i j m) l.1.1 l.1.2 := by
    intro p q hpq
    unfold Board.set at hpq ⊢
    by_cases hc : p = i ∧ q = j
    · rw [if_pos hc] at hpq
      exact absurd hpq.symm hm
    · rw [if_neg hc] at hpq
      exact hpq
  have e1 := key _ _ h1
  have e2 := key _ _ h2
  have e3 := key _ _ h3
  refine ⟨l, hl, ?_, ?_, ?_, ?_⟩
  · rw [e1]
    exact hne
  · rfl
  · rw [e2, e1]
  · rw [e3, e1]

/-- What one pass does to the board: on the two paths that apply a move, the
mark of the active participant is written into an empty cell; on the other
paths the board stays as it is. -/
theorem iteration_board (s s1 : Server) (g g1 : Game) (input : Option (List Char)) (p : Path)
    (h : iteration s g input = some (p, s1, g1)) :
    ((p = Path.switched ∨ p = Path.finished) ∧
      ∃ i j, g.board i j = "" ∧ g1.board = g.board.set i j (markOf g)) ∨
    ((p = Path.disconnected ∨ p = Path.parseError ∨ p = Path.invalidMove) ∧
      g1.board = g.board) := by
  rcases (iteration_spec s g input _ h).2.2.2 with h | h | h | h | h
  · exact Or.inr ⟨Or.inl h.1, h.2.2.2.1⟩
  · exact Or.inr ⟨Or.inr (Or.inl h.1), h.2.2.2.1⟩
  · exact Or.inr ⟨Or.inr (Or.inr h.1), h.2.2.2.1⟩
  · obtain ⟨hp, ⟨_, _, _, i, j, _, _, _, _, _, he, hb⟩, _⟩ := h
    exact Or.inl ⟨Or.inl hp, i, j, he, hb⟩
  · obtain ⟨hp, ⟨_, _, _, i, j, _, _, _, _, _, he, hb⟩, _⟩ := h
    exact Or.inl ⟨Or.inr hp, i, j, he, hb⟩

/-- On the path `switched` the new board was reported not finished. -/
theorem iteration_switched (s s1 : Server) (g g1 : Game) (input : Option (List Char))
    (h : iteration s g input = some (Path.switched, s1, g1)) : (CheckWinner g1).2 = false := by
  rcases (iteration_spec s g input _ h).2.2.2 with h | h | h | h | h
  · exact absurd h.1 (by simp)
  · exact absurd h.1 (by simp)
  · exact absurd h.1 (by simp)
  · exact h.2.2.1
  · exact absurd h.1 (by simp)

/-- Invariant principle for runs: a property of the game that holds at the
start and is kept by every pass after which the loop goes on holds whenever
the loop awaits a move, and a run that has stopped did so by one last pass
from a state with the property. -/
theorem Start_invariant (Inv : Game → Prop)
    (hstep : ∀ (s s1 : Server) (g g1 : Game) (input : Option (List Char)) (p : Path),
      Inv g → iteration s g input = some (p, s1, g1) →
      (p = Path.parseError ∨ p = Path.invalidMove ∨ p = Path.switched) → Inv g1)
    (inputs : List (Option (List Char))) (s : Server) (g : Game) (r : Run)
    (h : Start s g inputs = some r) (hinv : Inv g) :
    (r.status = Status.awaiting → Inv r.game) ∧
    (r.status = Status.stopped →
      ∃ s0 g0 input g1, Inv g0 ∧
        ((iteration s0 g0 input = some (Path.disconnected, r.server, g1) ∧ r.game = g1 ∧
            r.trace.getLast? = some Path.disconnected) ∨
         (iteration s0 g0 input = some (Path.finished, r.server, g1) ∧ r.game = closeAll g1 ∧
            r.trace.getLast? = some Path.finished))) := by
  induction inputs generalizing s g r with
  | nil =>
    simp only [Start, Option.some.injEq] at h
    subst h
    exact ⟨fun _ => hinv, fun hs => absurd hs (by simp)⟩
  | cons input rest ih =>
    cases hit : iteration s g input with
    | none =>
      rw [Start_cons_none _ _ _ _ hit] at h
      exact absurd h (by simp)
    | some out =>
      obtain ⟨p, s1, g1⟩ := out
      rcases Path.cases5 p with rfl | rfl | hp
      · rw [Start_cons_disconnected _ _ _ _ _ _ hit] at h
        cases h
        exact ⟨fun hs => absurd hs (by simp), fun _ =>
          ⟨s, g, input, g1, hinv, Or.inl ⟨hit, rfl, rfl⟩⟩⟩
      · rw [Start_cons_finished _ _ _ _ _ _ hit] at h
        cases h
        exact ⟨fun hs => absurd hs (by simp), fun _ =>
          ⟨s, g, input, g1, hinv, Or.inr ⟨hit, rfl, rfl⟩⟩⟩
      · rw [Start_cons_continue _ _ _ _ _ _ _ hit hp] at h
        cases hr : Start s1 g1 rest with
        | none =>
          rw [hr] at h
          exact absurd h (by simp)
        | some r0 =>
          rw [hr] at h
          simp only [Option.map_some', Option.some.injEq] at h
          subst h
          obtain ⟨ha, hb⟩ := ih s1 g1 r0 hr (hstep s s1 g g1 input p hinv hit hp)
          refine ⟨ha, fun hs => ?_⟩
          obtain ⟨s0, g0, inp, g2, hi0, hcase⟩ := hb hs
          refine ⟨s0, g0, inp, g2, hi0, ?_⟩
          have hlast : ∀ q, r0.trace.getLast? = some q → (p :: r0.trace).getLast? = some q := by
            intro q hq
            cases ht : r0.trace with
            | nil =>
              rw [ht] at hq
              exact absurd hq (by simp)
            | cons a t =>
              rw [ht] at hq
              rw [List.getLast?_cons_cons]
              exact hq
          rcases hcase with ⟨h1, h2, h3⟩ | ⟨h1, h2, h3⟩
          · exact Or.inl ⟨h1, h2, hlast _ h3⟩
          · exact Or.inr ⟨h1, h2, hlast _ h3⟩

/-- A pass after which the loop goes on leaves no completed line. -/
theorem iteration_noWon (s s1 : Server) (g g1 : Game) (input : Option (List Char)) (p : Path)
    (hinv : ¬ hasWonLine g.board) (h : iteration s g input = some (p, s1, g1))
    (hp : p = Path.parseError ∨ p = Path.invalidMove ∨ p = Path.switched) :
    ¬ hasWonLine g1.board := by
  rcases hp with rfl | rfl | rfl
  · rcases iteration_board _ _ _ _ _ _ h with ⟨hp, _⟩ | ⟨_, hb⟩
    · exact absurd hp (by simp)
    · rw [hb]
      exact hinv
  · rcases iteration_board _ _ _ _ _ _ h with ⟨hp, _⟩ | ⟨_, hb⟩
    · exact absurd hp (by simp)
    · rw [hb]
      exact hinv
  · exact (CheckWinner_not_finished g1 (iteration_switched _ _ _ _ _ h)).1

theorem not_hasWonLine_emptyBoard : ¬ hasWonLine emptyBoard := by
  rintro ⟨l, _, hne, _⟩
  exact hne rfl

theorem Status.cases2 (st : Status) : st = Status.awaiting ∨ st = Status.stopped := by
  cases st <;> simp

/-- C16, as the code has it.  In every board reached from the empty board by
the turn loop, all lines that consist of three identical non-empty marks hold
the same mark, and as long as the loop awaits a move no line is completed. -/
theorem c16_completed_lines_same_mark (s : Server) (conns : List Conn)
    (usernames : List String) (gameId : String) (inputs : List (Option (List Char))) (r : Run)
    (h : Start s (NewGame conns usernames gameId) inputs = some r) :
    (r.status = Status.awaiting → ¬ hasWonLine r.game.board) ∧
    (∀ l1 ∈ allLines, ∀ l2 ∈ allLines, lineWon r.game.board l1 → lineWon r.game.board l2 →
      r.game.board l1.1.1 l1.1.2 = r.game.board l2.1.1 l2.1.2) := by
  obtain ⟨ha, hb⟩ := Start_invariant (fun g => ¬ hasWonLine g.board)
    (fun s s1 g g1 input p hinv hit hp => iteration_noWon s s1 g g1 input p hinv hit hp)
    inputs s _ r h not_hasWonLine_emptyBoard
  refine ⟨ha, fun l1 hl1 l2 hl2 hw1 hw2 => ?_⟩
  rcases Status.cases2 r.status with hs | hs
  · exact absurd ⟨l1, hl1, hw1⟩ (ha hs)
  · obtain ⟨s0, g0, input, g1, hinv, hcase⟩ := hb hs
    rcases hcase with ⟨hit, hg, _⟩ | ⟨hit, hg, _⟩
    · rcases iteration_board _ _ _ _ _ _ hit with ⟨hp, _⟩ | ⟨_, hbd⟩
      · exact absurd hp (by simp)
      · rw [hg, hbd] at hw1
        exact absurd ⟨l1, hl1, hw1⟩ hinv
    · rcases iteration_board _ _ _ _ _ _ hit with ⟨_, i, j, _, hbd⟩ | ⟨hp, _⟩
      · have hbr : r.game.board = g0.board.set i j (markOf g0) := by
          rw [hg]
          exact hbd
        rw [hbr] at hw1 hw2 ⊢
        rw [lineWon_after_set _ _ _ _ hinv l1 hl1 hw1, lineWon_after_set _ _ _ _ hinv l2 hl2 hw2]
      · exact absurd hp (by simp)

/-- Witness for `c16_completed_lines_same_mark`: the ninth move, X at (2,2),
completes both diagonals, and both hold the mark X. -/
theorem c16_completed_lines_same_mark_witness :
    ∃ r, Start sampleServer (NewGame [⟨[], false⟩, ⟨[], false⟩] ["alice", "bob"] "match-1")
        twoDiagonalsMoves = some r ∧
      lineWon r.game.board ((0, 0), (1, 1), (2, 2)) ∧
      lineWon r.game.board ((0, 2), (1, 1), (2, 0)) ∧
      r.game.board 0 0 = r.game.board 0 2 :=
  ⟨_, rfl, by decide, by decide,
    (c16_completed_lines_same_mark sampleServer [⟨[], false⟩, ⟨[], false⟩] ["alice", "bob"]
      "match-1" twoDiagonalsMoves _ rfl).2 ((0, 0), (1, 1), (2, 2)) (by decide)
      ((0, 2), (1, 1), (2, 0)) (by decide) (by decide) (by decide)⟩

/-- C16 as stated fails: nine accepted moves, the last one X at (1,1), lead to
a board in which two different lines, the first row and the first column, each
consist of three X. -/
theorem c16_counterexample :
    ∃ r, Start sampleServer sampleGame doubleLineMoves = some r ∧
      r.trace = [Path.switched, Path.switched, Path.switched, Path.switched, Path.switched,
        Path.switched, Path.switched, Path.switched, Path.finished] ∧
      r.game.board.rows = [["X", "X", "X"], ["X", "O", "O"], ["X", "O", "O"]] ∧
      ((0, 0), (0, 1), (0, 2)) ∈ allLines ∧ ((0, 0), (1, 0), (2, 0)) ∈ allLines ∧
      lineWon r.game.board ((0, 0), (0, 1), (0, 2)) ∧
      lineWon r.game.board ((0, 0), (1, 0), (2, 0)) ∧
      (((0, 0), (0, 1), (0, 2)) : (Fin 3 × Fin 3) × (Fin 3 × Fin 3) × (Fin 3 × Fin 3)) ≠
        ((0, 0), (1, 0), (2, 0)) :=
  ⟨_, rfl, rfl, rfl, by decide, by decide, by decide, by decide, by decide⟩

/-- A pass after which the loop goes on keeps the turn indicators in
agreement and leaves no completed line. -/
theorem iteration_turn_noWon (s s1 : Server) (g g1 : Game) (input : Option (List Char))
    (p : Path) (hinv : TurnInv g ∧ ¬ hasWonLine g.board)
    (h : iteration s g input = some (p, s1, g1))
    (hp : p = Path.parseError ∨ p = Path.invalidMove ∨ p = Path.switched) :
    TurnInv g1 ∧ ¬ hasWonLine g1.board :=
  ⟨(iteration_turn s g input _ h hinv.1).1, iteration_noWon s s1 g g1 input p hinv.2 h hp⟩

/-- The winner reported after a move written into a board without a completed
line is the mark written, unless it is a draw. -/
theorem CheckWinner_after_set (g g1 : Game) (i j : Fin 3) (m : String)
    (hn : ¬ hasWonLine g.board) (hb : g1.board = g.board.set i j m)
    (hfin : (CheckWinner g1).2 = true) (hw : (CheckWinner g1).1 ≠ "Draw") :
    (CheckWinner g1).1 = m ∧ g1.board i j = m := by
  have hcell : g1.board i j = m := by
    rw [hb]
    simp [Board.set]
  refine ⟨?_, hcell⟩
  rcases CheckWinner_cases g1 with ⟨w, hne, hl, hc⟩ | ⟨_, _, hc⟩ | ⟨_, _, hc⟩
  · rw [hc]
    obtain ⟨l, hmem, h1, h2, h3⟩ := hl
    have hwon : lineWon (g.board.set i j m) l := by
      rw [← hb]
      refine ⟨by rw [h1]; exact hne, ?_, ?_, ?_⟩
      · rfl
      · rw [h2, h1]
      · rw [h3, h1]
    have := lineWon_after_set _ _ _ _ hn l hmem hwon
    rw [← hb, h1] at this
    exact this
  · rw [hc] at hfin
    exact absurd hfin (by simp)
  · rw [hc] at hw
    exact absurd rfl hw

/-- C17.  At any point of a run from `NewGame` at which the loop awaits a
move, when the next pass applies a move and `CheckWinner` reports finished with
a winner other than "Draw", that winner is the mark just written into the
(before empty) cell of the move, and it is X if `currentPlayer` is 0 at that
moment and O if it is 1 (and `currentPlayer` is one of the two): the mark
reported is never the one of the opponent of the participant who moved. -/
theorem c17_winner_is_last_mover (s : Server) (conns : List Conn) (usernames : List String)
    (gameId : String) (inputs : List (Option (List Char))) (r0 : Run)
    (input : Option (List Char)) (s1 : Server) (g1 : Game)
    (h : Start s (NewGame conns usernames gameId) inputs = some r0)
    (hs : r0.status = Status.awaiting)
    (hit : iteration r0.server r0.game input = some (Path.finished, s1, g1))
    (hw : (CheckWinner g1).1 ≠ "Draw") :
    (r0.game.currentPlayer = 0 ∨ r0.game.currentPlayer = 1) ∧
    (r0.game.currentPlayer = 0 → (CheckWinner g1).1 = X) ∧
    (r0.game.currentPlayer = 1 → (CheckWinner g1).1 = O) ∧
    g1.currentPlayer = r0.game.currentPlayer ∧
    ∃ i j, r0.game.board i j = "" ∧ g1.board i j = (CheckWinner g1).1 ∧
      g1.board = r0.game.board.set i j (CheckWinner g1).1 := by
  obtain ⟨hinv, hnw⟩ := (Start_invariant (fun g => TurnInv g ∧ ¬ hasWonLine g.board)
    (fun s s1 g g1 input p hinv hit hp => iteration_turn_noWon s s1 g g1 input p hinv hit hp)
    inputs s _ r0 h ⟨TurnInv_NewGame _ _ _, not_hasWonLine_emptyBoard⟩).1 hs
  have hfin := (iteration_finished _ _ _ _ _ hit).1
  have hcp := (iteration_turn _ _ _ _ hit hinv).2.2 (by simp)
  rcases iteration_board _ _ _ _ _ _ hit with ⟨_, i, j, he, hb⟩ | ⟨hp, _⟩
  · obtain ⟨hwin, hcell⟩ := CheckWinner_after_set r0.game g1 i j _ hnw hb hfin hw
    have hmark : ∀ c : Int, r0.game.currentPlayer = c →
        (c = 0 → markOf r0.game = X) ∧ (c = 1 → markOf r0.game = O) := by
      intro c hc
      rcases hinv with ⟨h0, ht⟩ | ⟨h1, hf⟩
      · refine ⟨fun _ => by simp [markOf, ht], fun hc1 => ?_⟩
        rw [h0] at hc
        omega
      · refine ⟨fun hc0 => ?_, fun _ => by simp [markOf, hf]⟩
        rw [h1] at hc
        omega
    refine ⟨?_, ?_, ?_, hcp, i, j, he, ?_, ?_⟩
    · rcases hinv with ⟨h0, _⟩ | ⟨h1, _⟩
      · exact Or.inl h0
      · exact Or.inr h1
    · intro h0
      rw [hwin]
      exact (hmark _ rfl).1 h0
    · intro h1
      rw [hwin]
      exact (hmark _ rfl).2 h1
    · rw [hwin]
      exact hcell
    · rw [hwin]
      exact hb
  · exact absurd hp (by simp)

/-- Witness for `c17_winner_is_last_mover`: in scenario A the fifth move is
made by participant 0 and the winner reported is X. -/
theorem c17_winner_is_last_mover_witness :
    ∃ r0 s1 g1,
      Start sampleServer (NewGame [⟨[], false⟩, ⟨[], false⟩] ["alice", "bob"] "match-1")
        (scenarioA.take 4) = some r0 ∧
      iteration r0.server r0.game (some "1 3".toList) = some (Path.finished, s1, g1) ∧
      r0.game.currentPlayer = 0 ∧ (CheckWinner g1).1 = X :=
  ⟨_, _, _, rfl, rfl, rfl,
    (c17_winner_is_last_mover sampleServer [⟨[], false⟩, ⟨[], false⟩] ["alice", "bob"]
      "match-1" (scenarioA.take 4) _ (some "1 3".toList) _ _ rfl rfl rfl (by decide)).2.1 rfl⟩

/-! ## Invariants of the runs: counting cells -/

/-- Writing a cell changes the count by the cell alone. -/
theorem countCells_set (p : String → Bool) (b : Board) (i j : Fin 3) (m : String) :
    countCells p (b.set i j m) + (if p (b i j) = true then 1 else 0) =
      countCells p b + (if p m = true then 1 else 0) := by
  fin_cases i <;> fin_cases j <;>
    simp [countCells, Board.cells, Board.set, List.countP_cons] <;> omega

theorem countCells_le (p : String → Bool) (b : Board) : countCells p b ≤ 9 := by
  unfold countCells
  exact (List.countP_le_length p).trans (by simp [Board.cells])

theorem filledCells_emptyBoard : filledCells emptyBoard = 0 := by decide

/-- A board with an empty cell has at most eight non-empty cells. -/
theorem filledCells_of_not_full (b : Board) (h : ¬ boardFull b) : filledCells b ≤ 8 := by
  by_contra hc
  have h9 : filledCells b = 9 := by
    have := countCells_le (fun c => c != "") b
    unfold filledCells at hc ⊢
    omega
  apply h
  have hall : ∀ c ∈ b.cells, (fun c => c != "") c = true := by
    have hlen : b.cells.countP (fun c => c != "") = b.cells.length := by
      unfold filledCells countCells at h9
      rw [h9]
      simp [Board.cells]
    exact List.countP_eq_length.1 hlen
  intro i j
  have hmem : b i j ∈ b.cells := by
    fin_cases i <;> fin_cases j <;> simp [Board.cells]
  have := hall _ hmem
  simpa using this

/-- A pass that applies a move fills one more cell; any other pass fills
none. -/
theorem iteration_filled (s s1 : Server) (g g1 : Game) (input : Option (List Char)) (p : Path)
    (h : iteration s g input = some (p, s1, g1)) :
    filledCells g1.board =
      filledCells g.board + (if p = Path.switched ∨ p = Path.finished then 1 else 0) := by
  rcases iteration_board _ _ _ _ _ _ h with ⟨hp, i, j, he, hb⟩ | ⟨hp, hb⟩
  · rw [if_pos hp, hb]
    have := countCells_set (fun c => c != "") g.board i j (markOf g)
    have hm := markOf_ne_empty g
    simp only [he, bne_self_eq_false, Bool.false_eq_true, if_false, bne_iff_ne, ne_eq, hm,
      not_false_eq_true, if_true, add_zero] at this
    exact this
  · rw [hb, if_neg (by rcases hp with rfl | rfl | rfl <;> simp)]
    rfl

/-- Along a run the number of non-empty cells grows by the number of applied
moves. -/
theorem Start_filled (inputs : List (Option (List Char))) (s : Server) (g : Game) (r : Run)
    (h : Start s g inputs = some r) :
    filledCells r.game.board = filledCells g.board + appliedMoves r.trace := by
  induction inputs generalizing s g r with
  | nil =>
    simp only [Start, Option.some.injEq] at h
    subst h
    rfl
  | cons input rest ih =>
    cases hit : iteration s g input with
    | none =>
      rw [Start_cons_none _ _ _ _ hit] at h
      exact absurd h (by simp)
    | some out =>
      obtain ⟨p, s1, g1⟩ := out
      have hstep := iteration_filled _ _ _ _ _ _ hit
      rcases Path.cases5 p with rfl | rfl | hp
      · rw [Start_cons_disconnected _ _ _ _ _ _ hit] at h
        cases h
        simpa [appliedMoves] using hstep
      · rw [Start_cons_finished _ _ _ _ _ _ hit] at h
        cases h
        simpa [appliedMoves, closeAll] using hstep
      · rw [Start_cons_continue _ _ _ _ _ _ _ hit hp] at h
        cases hr : Start s1 g1 rest with
        | none =>
          rw [hr] at h
          exact absurd h (by simp)
        | some r0 =>
          rw [hr] at h
          simp only [Option.map_some', Option.some.injEq] at h
          subst h
          have h2 := ih s1 g1 r0 hr
          simp only [appliedMoves]
          rw [h2, hstep]
          omega

/-- A pass after which the loop goes on leaves an empty cell, when there was
one before. -/
theorem iteration_notFull (s s1 : Server) (g g1 : Game) (input : Option (List Char)) (p : Path)
    (hinv : ¬ boardFull g.board) (h : iteration s g input = some (p, s1, g1))
    (hp : p = Path.parseError ∨ p = Path.invalidMove ∨ p = Path.switched) :
    ¬ boardFull g1.board := by
  rcases hp with rfl | rfl | rfl
  · rcases iteration_board _ _ _ _ _ _ h with ⟨hp, _⟩ | ⟨_, hb⟩
    · exact absurd hp (by simp)
    · rw [hb]
      exact hinv
  · rcases iteration_board _ _ _ _ _ _ h with ⟨hp, _⟩ | ⟨_, hb⟩
    · exact absurd hp (by simp)
    · rw [hb]
      exact hinv
  · exact (CheckWinner_not_finished g1 (iteration_switched _ _ _ _ _ h)).2

theorem not_boardFull_emptyBoard : ¬ boardFull emptyBoard := fun h => h 0 0 rfl

/-- C19.  In every run of a match from `NewGame` the number of non-empty cells
equals the number of accepted moves, each pass that applies a move increasing
it by exactly one; while the loop awaits a move at most eight moves have been
applied, no run has more than nine, and a run with nine applied moves has
stopped on a pass after which `CheckWinner` reported finished. -/
theorem c19_at_most_nine_moves (s : Server) (conns : List Conn) (usernames : List String)
    (gameId : String) (inputs : List (Option (List Char))) (r : Run)
    (h : Start s (NewGame conns usernames gameId) inputs = some r) :
    filledCells r.game.board = appliedMoves r.trace ∧
    (∀ input p s1 g1, iteration r.server r.game input = some (p, s1, g1) →
      (p = Path.switched ∨ p = Path.finished) →
      filledCells g1.board = filledCells r.game.board + 1) ∧
    appliedMoves r.trace ≤ 9 ∧
    (r.status = Status.awaiting → appliedMoves r.trace ≤ 8) ∧
    (appliedMoves r.trace = 9 →
      r.status = Status.stopped ∧ r.trace.getLast? = some Path.finished ∧
      (CheckWinner r.game).2 = true) := by
  have hfill : filledCells r.game.board = appliedMoves r.trace := by
    rw [Start_filled inputs s _ r h]
    simp [NewGame, filledCells_emptyBoard]
  obtain ⟨ha, hb⟩ := Start_invariant (fun g => ¬ boardFull g.board)
    (fun s s1 g g1 input p hinv hit hp => iteration_notFull s s1 g g1 input p hinv hit hp)
    inputs s _ r h not_boardFull_emptyBoard
  have h8 : r.status = Status.awaiting → appliedMoves r.trace ≤ 8 := by
    intro hs
    rw [← hfill]
    exact filledCells_of_not_full _ (ha hs)
  refine ⟨hfill, ?_, ?_, h8, ?_⟩
  · intro input p s1 g1 hit hp
    rw [iteration_filled _ _ _ _ _ _ hit, if_pos hp]
  · rw [← hfill]
    exact countCells_le _ _
  · intro h9
    rcases Status.cases2 r.status with hs | hs
    · have := h8 hs
      omega
    · obtain ⟨s0, g0, input, g1, hinv, hcase⟩ := hb hs
      rcases hcase with ⟨hit, hg, _⟩ | ⟨hit, hg, hlast⟩
      · rcases iteration_board _ _ _ _ _ _ hit with ⟨hp, _⟩ | ⟨_, hbd⟩
        · exact absurd hp (by simp)
        · have hle := filledCells_of_not_full _ hinv
          rw [← hbd, ← hg, hfill] at hle
          omega
      · refine ⟨hs, hlast, ?_⟩
        rw [hg]
        exact (iteration_finished _ _ _ _ _ hit).1

/-- Witness for `c19_at_most_nine_moves`: the nine moves that end with X
completing two lines fill the board; the run has stopped. -/
theorem c19_at_most_nine_moves_witness :
    ∃ r, Start sampleServer (NewGame [⟨[], false⟩, ⟨[], false⟩] ["alice", "bob"] "match-1")
        doubleLineMoves = some r ∧
      appliedMoves r.trace = 9 ∧ filledCells r.game.board = appliedMoves r.trace ∧
      r.status = Status.stopped ∧ (CheckWinner r.game).2 = true :=
  ⟨_, rfl, rfl,
    (c19_at_most_nine_moves sampleServer [⟨[], false⟩, ⟨[], false⟩] ["alice", "bob"]
      "match-1" doubleLineMoves _ rfl).1,
    ((c19_at_most_nine_moves sampleServer [⟨[], false⟩, ⟨[], false⟩] ["alice", "bob"]
      "match-1" doubleLineMoves _ rfl).2.2.2.2 rfl).1,
    ((c19_at_most_nine_moves sampleServer [⟨[], false⟩, ⟨[], false⟩] ["alice", "bob"]
      "match-1" doubleLineMoves _ rfl).2.2.2.2 rfl).2.2⟩

theorem cellsValid_set (b : Board) (i j : Fin 3) (m : String) (hv : cellsValid b)
    (hm : m = X ∨ m = O) : cellsValid (b.set i j m) := by
  intro i1 j1
  unfold Board.set
  split
  · exact Or.inr hm
  · exact hv i1 j1

theorem TurnStartInv_NewGame (conns : List Conn) (usernames : List String) (gameId : String) :
    TurnStartInv (NewGame conns usernames gameId) :=
  ⟨fun _ _ => Or.inl rfl, TurnInv_NewGame _ _ _,
    show (countMark emptyBoard X : Int) - (countMark emptyBoard O : Int) = 0 by decide⟩

/-- A pass after which the loop goes on re-establishes the state of a turn
start. -/
theorem iteration_turnStart (s s1 : Server) (g g1 : Game) (input : Option (List Char))
    (p : Path) (hinv : TurnStartInv g) (h : iteration s g input = some (p, s1, g1))
    (hp : p = Path.parseError ∨ p = Path.invalidMove ∨ p = Path.switched) :
    TurnStartInv g1 := by
  obtain ⟨hv, ht, hc⟩ := hinv
  obtain ⟨ht1, hsw, hns⟩ := iteration_turn s g input _ h ht
  simp only at ht1 hsw hns
  refine ⟨?_, ht1, ?_⟩
  · rcases iteration_board _ _ _ _ _ _ h with ⟨_, i, j, _, hb⟩ | ⟨_, hb⟩
    · rw [hb]
      exact cellsValid_set _ _ _ _ hv (markOf_eq g)
    · rw [hb]
      exact hv
  · rcases iteration_board _ _ _ _ _ _ h with ⟨hpa, i, j, he, hb⟩ | ⟨hpr, hb⟩
    · have hps : p = Path.switched := by
        rcases hp with rfl | rfl | rfl
        · exact absurd hpa (by simp)
        · exact absurd hpa (by simp)
        · rfl
      rw [hsw hps, hb]
      have hx := countCells_set (fun c => c == X) g.board i j (markOf g)
      have ho := countCells_set (fun c => c == O) g.board i j (markOf g)
      have e1 : (("" : String) == X) = false := by decide
      have e2 : (("" : String) == O) = false := by decide
      rw [he] at hx ho
      simp only [e1, e2, Bool.false_eq_true, if_false, add_zero] at hx ho
      unfold countMark at hc ⊢
      rcases ht with ⟨h0, hpt⟩ | ⟨h1, hpf⟩
      · have hm : markOf g = X := by simp [markOf, hpt]
        have e3 : (X == X) = true := by decide
        have e4 : (X == O) = false := by decide
        rw [hm] at hx ho ⊢
        simp only [e3, e4, if_true, Bool.false_eq_true, if_false, add_zero] at hx ho
        rw [hx, ho, h0]
        rw [h0] at hc
        push_cast
        omega
      · have hm : markOf g = O := by simp [markOf, hpf]
        have e3 : (O == X) = false := by decide
        have e4 : (O == O) = true := by decide
        rw [hm] at hx ho ⊢
        simp only [e3, e4, if_true, Bool.false_eq_true, if_false, add_zero] at hx ho
        rw [hx, ho, h1]
        rw [h1] at hc
        push_cast
        omega
    · have hps : p ≠ Path.switched := by
        rcases hpr with rfl | rfl | rfl <;> simp
      rw [hns hps, hb]
      exact hc

/-- C20.  Each time the loop of a run from `NewGame` awaits a move, every cell
is empty, X or O, `playerOneTurn` is true exactly when `currentPlayer` is 0,
and the number of X cells minus the number of O cells equals `currentPlayer`,
which is 0 or 1. -/
theorem c20_turn_start_invariant (s : Server) (conns : List Conn) (usernames : List String)
    (gameId : String) (inputs : List (Option (List Char))) (r : Run)
    (h : Start s (NewGame conns usernames gameId) inputs = some r)
    (hs : r.status = Status.awaiting) :
    (∀ i j, r.game.board i j = "" ∨ r.game.board i j = X ∨ r.game.board i j = O) ∧
    (r.game.playerOneTurn = true ↔ r.game.currentPlayer = 0) ∧
    (countMark r.game.board X : Int) - (countMark r.game.board O : Int) =
      r.game.currentPlayer ∧
    (r.game.currentPlayer = 0 ∨ r.game.currentPlayer = 1) := by
  obtain ⟨hv, ht, hc⟩ := (Start_invariant TurnStartInv
    (fun s s1 g g1 input p hinv hit hp => iteration_turnStart s s1 g g1 input p hinv hit hp)
    inputs s _ r h (TurnStartInv_NewGame _ _ _)).1 hs
  refine ⟨hv, ?_, hc, ?_⟩
  · rcases ht with ⟨h0, hpt⟩ | ⟨h1, hpf⟩
    · exact ⟨fun _ => h0, fun _ => hpt⟩
    · rw [h1, hpf]
      exact ⟨fun hx => absurd hx (by simp), fun hx => absurd hx (by decide)⟩
  · rcases ht with ⟨h0, _⟩ | ⟨h1, _⟩
    · exact Or.inl h0
    · exact Or.inr h1

/-- Witness for `c20_turn_start_invariant`: after three applied moves of
scenario A there are two X and one O and slot 1 is to move. -/
theorem c20_turn_start_invariant_witness :
    ∃ r, Start sampleServer (NewGame [⟨[], false⟩, ⟨[], false⟩] ["alice", "bob"] "match-1")
        (scenarioA.take 3) = some r ∧
      countMark r.game.board X = 2 ∧ countMark r.game.board O = 1 ∧
      (countMark r.game.board X : Int) - (countMark r.game.board O : Int) =
        r.game.currentPlayer ∧
      r.game.currentPlayer = 1 :=
  ⟨_, rfl, rfl, rfl,
    (c20_turn_start_invariant sampleServer [⟨[], false⟩, ⟨[], false⟩] ["alice", "bob"]
      "match-1" (scenarioA.take 3) _ rfl rfl).2.2.1, rfl⟩

/-! ## Absence of panics -/

/-- With two connections and the active slot 0 or 1, the indexing
`g.conns[g.currentPlayer]` is in range. -/
theorem connIndex?_isSome (g : Game) (hc : g.conns.length = 2) (ht : TurnInv g) :
    (connIndex? g.conns g.currentPlayer).isSome := by
  unfold connIndex?
  rcases ht with ⟨h0, _⟩ | ⟨h1, _⟩
  · rw [h0, hc]
    rfl
  · rw [h1, hc]
    rfl

/-- A run of a game with two connections, two usernames and agreeing turn
indicators never panics. -/
theorem Start_isSome (inputs : List (Option (List Char))) (s : Server) (g : Game)
    (hc : g.conns.length = 2) (hu : 2 ≤ g.Usernames.length) (ht : TurnInv g) :
    ∃ r, Start s g inputs = some r := by
  induction inputs generalizing s g with
  | nil => exact ⟨_, rfl⟩
  | cons input rest ih =>
    obtain ⟨out, hit⟩ := Option.isSome_iff_exists.1
      (iteration_isSome s g input (connIndex?_isSome g hc ht) hu)
    obtain ⟨p, s1, g1⟩ := out
    rcases Path.cases5 p with rfl | rfl | hp
    · exact ⟨_, Start_cons_disconnected _ _ _ _ _ _ hit⟩
    · exact ⟨_, Start_cons_finished _ _ _ _ _ _ hit⟩
    · have hframe := iteration_spec s g input _ hit
      have hc1 : g1.conns.length = 2 := hframe.2.2.1.trans hc
      have hu1 : 2 ≤ g1.Usernames.length := by
        have : g1.Usernames = g.Usernames := hframe.2.1
        rw [this]
        exact hu
      have ht1 : TurnInv g1 := (iteration_turn s g input _ hit ht).1
      obtain ⟨r, hr⟩ := ih s1 g1 hc1 hu1 ht1
      exact ⟨_, by rw [Start_cons_continue _ _ _ _ _ _ _ hit hp, hr]; rfl⟩

/-- C18.  A run of a match from `NewGame` with two connections and two
usernames never panics; `ValidateMove` never panics, whatever the integers
row and col; and every pass of the run that calls `SetMove` (the move is
applied) calls it with a row and a column in [0,3) of a cell that is empty, and
`SetMove` writes that cell. -/
theorem c18_no_index_out_of_bounds (s : Server) (conns : List Conn) (usernames : List String)
    (gameId : String) (inputs : List (Option (List Char)))
    (hc : conns.length = 2) (hu : usernames.length = 2) :
    (∃ r, Start s (NewGame conns usernames gameId) inputs = some r) ∧
    (∀ (g : Game) (row col : Int), ∃ err, ValidateMove g row col = some (g, err)) ∧
    (∀ r input p s1 g1, Start s (NewGame conns usernames gameId) inputs = some r →
      iteration r.server r.game input = some (p, s1, g1) →
      (p = Path.switched ∨ p = Path.finished) →
      ∃ line row col, input = some line ∧ parseMove line = (row, col, none) ∧
        0 ≤ row ∧ row < 3 ∧ 0 ≤ col ∧ col < 3 ∧
        ∃ i j : Fin 3, (i.val : Int) = row ∧ (j.val : Int) = col ∧ r.game.board i j = "" ∧
          SetMove r.game row col =
            some { r.game with board := r.game.board.set i j (markOf r.game) } ∧
          g1.board = r.game.board.set i j (markOf r.game)) := by
  refine ⟨Start_isSome inputs s _ hc (by simp [NewGame, hu]) (TurnInv_NewGame _ _ _),
    fun g row col => ValidateMove_total g row col, ?_⟩
  intro r input p s1 g1 _ hit hp
  have key : ∀ line row col (i j : Fin 3), input = some line →
      parseMove line = (row, col, none) → idx3? row = some i → idx3? col = some j →
      r.game.board i j = "" → g1.board = r.game.board.set i j (markOf r.game) →
      ∃ line row col, input = some line ∧ parseMove line = (row, col, none) ∧
        0 ≤ row ∧ row < 3 ∧ 0 ≤ col ∧ col < 3 ∧
        ∃ i j : Fin 3, (i.val : Int) = row ∧ (j.val : Int) = col ∧ r.game.board i j = "" ∧
          SetMove r.game row col =
            some { r.game with board := r.game.board.set i j (markOf r.game) } ∧
          g1.board = r.game.board.set i j (markOf r.game) := by
    intro line row col i j hin hpm hi hj he hb
    have hi2 := (idx3?_eq_some_iff _ _).1 hi
    have hj2 := (idx3?_eq_some_iff _ _).1 hj
    have := i.isLt
    have := j.isLt
    exact ⟨line, row, col, hin, hpm, by omega, by omega, by omega, by omega, i, j, hi2, hj2, he,
      SetMove_eq _ _ _ i j hi hj, hb⟩
  rcases (iteration_spec _ _ _ _ hit).2.2.2 with h | h | h | h | h
  · exact absurd h.1 (by rcases hp with rfl | rfl <;> simp)
  · exact absurd h.1 (by rcases hp with rfl | rfl <;> simp)
  · exact absurd h.1 (by rcases hp with rfl | rfl <;> simp)
  · obtain ⟨_, ⟨line, row, col, i, j, hin, hpm, _, hi, hj, he, hb⟩, _⟩ := h
    exact key line row col i j hin hpm hi hj he hb
  · obtain ⟨_, ⟨line, row, col, i, j, hin, hpm, _, hi, hj, he, hb⟩, _⟩ := h
    exact key line row col i j hin hpm hi hj he hb

/-! ## Refinement of the reference evaluation -/

/-- Witness for `c18_no_index_out_of_bounds`: scenario A, played on two fresh
connections, runs without panic. -/
theorem c18_no_index_out_of_bounds_witness :
    ∃ r, Start sampleServer (NewGame [⟨[], false⟩, ⟨[], false⟩] ["alice", "bob"] "match-1")
      scenarioA = some r :=
  (c18_no_index_out_of_bounds sampleServer [⟨[], false⟩, ⟨[], false⟩] ["alice", "bob"]
    "match-1" scenarioA rfl rfl).1

theorem evaluateOutcomeRef_unfold (b : Board) :
    evaluateOutcomeRef b =
      if b 0 0 ≠ "" ∧ b 0 0 = b 0 1 ∧ b 0 1 = b 0 2 then (b 0 0, true)
      else if b 1 0 ≠ "" ∧ b 1 0 = b 1 1 ∧ b 1 1 = b 1 2 then (b 1 0, true)
      else if b 2 0 ≠ "" ∧ b 2 0 = b 2 1 ∧ b 2 1 = b 2 2 then (b 2 0, true)
      else if b 0 0 ≠ "" ∧ b 0 0 = b 1 0 ∧ b 1 0 = b 2 0 then (b 0 0, true)
      else if b 0 1 ≠ "" ∧ b 0 1 = b 1 1 ∧ b 1 1 = b 2 1 then (b 0 1, true)
      else if b 0 2 ≠ "" ∧ b 0 2 = b 1 2 ∧ b 1 2 = b 2 2 then (b 0 2, true)
      else if b 0 0 ≠ "" ∧ b 0 0 = b 1 1 ∧ b 1 1 = b 2 2 then (b 0 0, true)
      else if b 0 2 ≠ "" ∧ b 0 2 = b 1 1 ∧ b 1 1 = b 2 0 then (b 0 2, true)
      else if boardHasEmpty b [0, 1, 2] then ("", false)
      else ("Draw", true) := by
  unfold evaluateOutcomeRef
  simp only [allLines, firstWonLine]
  have hfull : (∀ i j, b i j ≠ "") ↔ ¬ (boardHasEmpty b [0, 1, 2] = true) := by
    rw [boardHasEmpty_iff, not_not]
    rfl
  split_ifs <;> first | rfl | simp_all

/-- Testing the columns after all the rows instead of alternating rows and
columns selects the same value, when a completed column and a later completed
row carry the same value. -/
theorem chain_reorder {α : Type} (R0 C0 R1 C1 R2 C2 : Prop) [Decidable R0] [Decidable C0]
    [Decidable R1] [Decidable C1] [Decidable R2] [Decidable C2] (a0 r1 c1 r2 c2 t : α)
    (h1 : C0 → R1 → a0 = r1) (h2 : C0 → R2 → a0 = r2) (h3 : C1 → R2 → c1 = r2) :
    (if R0 then a0 else if C0 then a0 else if R1 then r1 else if C1 then c1
      else if R2 then r2 else if C2 then c2 else t) =
    (if R0 then a0 else if R1 then r1 else if R2 then r2 else if C0 then a0
      else if C1 then c1 else if C2 then c2 else t) := by
  by_cases hR0 : R0
  · simp only [if_pos hR0]
  · simp only [if_neg hR0]
    by_cases hC0 : C0
    · simp only [if_pos hC0]
      by_cases hR1 : R1
      · simp only [if_pos hR1]
        exact h1 hC0 hR1
      · simp only [if_neg hR1]
        by_cases hR2 : R2
        · simp only [if_pos hR2]
          exact h2 hC0 hR2
        · simp only [if_neg hR2]
    · simp only [if_neg hC0]
      by_cases hR1 : R1
      · simp only [if_pos hR1]
      · simp only [if_neg hR1]
        by_cases hC1 : C1
        · simp only [if_pos hC1]
          by_cases hR2 : R2
          · simp only [if_pos hR2]
            exact h3 hC1 hR2
          · simp only [if_neg hR2]
        · simp only [if_neg hC1]

/-- C13.  For every 3x3 board, whatever strings its cells hold, `CheckWinner`
returns the same (winner, finished) pair as the reference evaluation that
checks the three rows in order, then the three columns in order, then the main
diagonal, then the anti-diagonal. -/
theorem c13_checkWinner_refines_reference (g : Game) :
    CheckWinner g = evaluateOutcomeRef g.board := by
  rw [CheckWinner_unfold, evaluateOutcomeRef_unfold]
  refine chain_reorder _ _ _ _ _ _ _ _ _ _ _ _ ?_ ?_ ?_
  · rintro ⟨_, h1, _⟩ _
    rw [h1]
  · rintro ⟨_, h1, h2⟩ _
    rw [h1, h2]
  · rintro ⟨_, h1, h2⟩ ⟨_, h3, _⟩
    rw [h1, h2, h3]

/-- Witness for `c13_checkWinner_refines_reference`: with X on the first
column and on the second row the code finds the column first and the
reference finds the row first; both report X. -/
theorem c13_checkWinner_refines_reference_witness :
    CheckWinner (gameOfBoard boardColumnAndRow) = ("X", true) ∧
    evaluateOutcomeRef (gameOfBoard boardColumnAndRow).board = ("X", true) :=
  ⟨by decide, (c13_checkWinner_refines_reference (gameOfBoard boardColumnAndRow)).symm.trans
    (by decide)⟩

/-! ## The lock around the history update -/

/-- C15, evaluated.  Two matches (of the calls 0 and 1 of `NewGame`) finish at
the same time, their critical sections alternating action by action.  Each
locks the mutex of its own game: after the two `Lock()` calls both matches are
inside the section at once, and the whole schedule runs through, both
summaries being appended between the two `Lock()` and the two `Unlock()`.
Under one lock shared by all matches the second `Lock()` would block. -/
theorem c15_history_lock_is_per_game :
    ((sharedStart.run ((alternate (finishSection 0 sampleGame "X")
        (finishSection 1 (gameOfBoard boardTwoLines) "X")).take 2)).map (fun st => st.held) =
      some [MutexId.ofGame 1, MutexId.ofGame 0]) ∧
    ((sharedStart.run (alternate (finishSection 0 sampleGame "X")
        (finishSection 1 (gameOfBoard boardTwoLines) "X"))).map
          (fun st => (st.held, st.server.history.map (fun e => e.GameID))) =
      some ([], ["match-1", "g"])) ∧
    ((sharedStart.run ((alternate (finishSection 0 sampleGame "X")
        (finishSection 1 (gameOfBoard boardTwoLines) "X")).take 4)).map
          (fun st => (st.held, st.server.history.map (fun e => e.GameID))) =
      some ([MutexId.ofGame 1, MutexId.ofGame 0], ["match-1", "g"])) ∧
    ((sharedStart.run (alternate (finishSectionShared sampleGame "X")
        (finishSectionShared (gameOfBoard boardTwoLines) "X"))).map (fun st => st.held) =
      none) := by
  refine ⟨by decide, by decide, by decide, by decide⟩

end TicTacToe
